import Mathlib

/-! ## Verification of the VRIL-Storage drive state logic

This development is a shallow embedding of the client-side state logic of
`src/Frontend/src/FileBrowser.tsx` (together with the data shapes declared in
`src/Frontend/src/api.tsx`), and proofs about it.

Modelling conventions:
* TypeScript numbers used as ids are modelled as `Nat` (`ItemId`).
* `number | null` fields (`parentId`, `originalParentId`) are `Option Nat`.
* `modifiedAt` is a string in the source that is only ever consumed through
  `new Date(_).getTime()`; it is modelled directly as the parsed timestamp
  (`Nat`, epoch milliseconds).
* The JavaScript nullish coalescing operator `a ?? b` is `coalesce a b`.
* `Set<number>` objects built by the recursive `collectChildren` /
  `markFolderAndChildren` helpers are modelled as lists of ids computed by a
  bounded fixpoint iteration (`cascade`); the recursive DFS with a visited set
  in the source computes the least set of folder ids containing the seeds and
  closed under adding children that pass the `keep` test, which is exactly
  what the iteration saturates to (`mem_cascade_iff` below).
* Only the local ("optimistic") state updates are modelled.  The asynchronous
  `api*` calls, `window.confirm` dialogs and React rendering are outside the
  state model; a handler's local apply is its `setState`/`setSelectedIds`
  effect.
-/

/-- TypeScript `type ItemId = number`. -/
abbrev ItemId := Nat

/-- `DriveFolder` from `api.tsx`: `id`, `name`, `parentId`, `trashed`,
`originalParentId`. -/
structure DriveFolder where
  id : ItemId
  name : String
  parentId : Option ItemId
  trashed : Bool
  originalParentId : Option ItemId
deriving DecidableEq, Repr

/-- `DriveFile` from `api.tsx`.  `modifiedAt` is kept as the timestamp the
source obtains via `new Date(modifiedAt).getTime()`. -/
structure DriveFile where
  id : ItemId
  name : String
  type : String
  ownerId : Nat
  parentId : Option ItemId
  sizeBytes : Nat
  starred : Bool
  isShared : Bool
  trashed : Bool
  originalParentId : Option ItemId
  modifiedAt : Nat
deriving DecidableEq, Repr

/-- `DriveState` from `api.tsx`. -/
structure DriveState where
  rootFolderId : ItemId
  folders : List DriveFolder
  files : List DriveFile
deriving DecidableEq, Repr

/-- The sort field, `type SortBy = "name" | "modifiedAt"`. -/
inductive SortBy where
  | name
  | modifiedAt
deriving DecidableEq, Repr

/-- The sort direction, `type SortDir = "asc" | "desc"`. -/
inductive SortDir where
  | asc
  | desc
deriving DecidableEq, Repr

/-- `type Section = "my-drive" | "starred" | "shared" | "trash"`. -/
inductive DriveSection where
  | myDrive
  | starred
  | shared
  | trash
deriving DecidableEq, Repr

/-- JavaScript nullish coalescing `a ?? b` on nullable ids. -/
def coalesce (a b : Option ItemId) : Option ItemId :=
  match a with
  | some v => some v
  | none => b

/-- `p !== null && acc.has(p)`: the test "this item's parent is one of the
already collected folder ids". -/
def parentMem (acc : List ItemId) (p : Option ItemId) : Bool :=
  match p with
  | some v => acc.contains v
  | none => false

/-- One saturation round of the `collectChildren` / `markFolderAndChildren`
recursion: add the id of every folder that passes `keep`, whose parent is
already collected and that is not yet collected. -/
def cascadeStep (folders : List DriveFolder) (keep : DriveFolder → Bool)
    (acc : List ItemId) : List ItemId :=
  acc ++ (folders.filter
    (fun f => keep f && parentMem acc f.parentId && !(acc.contains f.id))).map
      (fun f => f.id)

/-- Iterate `cascadeStep` a fixed number of times. -/
def cascadeIter (folders : List DriveFolder) (keep : DriveFolder → Bool) :
    Nat → List ItemId → List ItemId
  | 0, acc => acc
  | Nat.succ k, acc => cascadeIter folders keep k (cascadeStep folders keep acc)

/-- The set of folder ids collected by the recursive cascade of the source
(`collectChildren` in `handleMoveToTrashSelected` / `handleRestoreSelected`,
`markFolderAndChildren` in `handlePermanentDeleteSelected`), seeded with
`seed`:  `folders.length` rounds of `cascadeStep` are guaranteed to saturate. -/
def cascade (folders : List DriveFolder) (keep : DriveFolder → Bool)
    (seed : List ItemId) : List ItemId :=
  cascadeIter folders keep folders.length seed

/-- The recursion the cascade implements, as an inductive specification:
an id is reached when it is a seed, or when it is the id of a folder passing
`keep` whose parent id is reached. -/
inductive FReach (folders : List DriveFolder) (keep : DriveFolder → Bool)
    (seed : List ItemId) : ItemId → Prop where
  | seed : ∀ {x : ItemId}, x ∈ seed → FReach folders keep seed x
  | step : ∀ {f : DriveFolder} {p : ItemId}, f ∈ folders → keep f = true →
      f.parentId = some p → FReach folders keep seed p →
      FReach folders keep seed f.id

/-! ## Trash / restore / delete: the local state updates

Each definition is the `setState` body of the corresponding handler in
`FileBrowser.tsx`, with the collected id sets made explicit. -/

/-- `handleMoveToTrashSelected`, lines 374-405: the collected folder ids:
selected non-trashed folders, then `collectChildren` cascading through
non-trashed child folders. -/
def moveToTrashFolderIds (st : DriveState) (sel : List ItemId) : List ItemId :=
  cascade st.folders (fun f => !f.trashed)
    ((st.folders.filter (fun f => !f.trashed && sel.contains f.id)).map
      (fun f => f.id))

/-- `handleMoveToTrashSelected`: the collected file ids: selected non-trashed
files plus non-trashed files whose parent is a collected folder. -/
def moveToTrashFileIds (st : DriveState) (sel : List ItemId) : List ItemId :=
  (st.files.filter (fun f => !f.trashed &&
    (sel.contains f.id || parentMem (moveToTrashFolderIds st sel) f.parentId))).map
      (fun f => f.id)

/-- The per-folder update of the `setState` in `handleMoveToTrashSelected`
(lines 411-420): a collected folder becomes `trashed` with
`originalParentId ?? parentId` recorded; others are untouched. -/
def trashUpdFolder (ids : List ItemId) (f : DriveFolder) : DriveFolder :=
  if ids.contains f.id then
    { f with trashed := true,
             originalParentId := coalesce f.originalParentId f.parentId }
  else f

/-- The per-file update of the same `setState` (lines 421-430). -/
def trashUpdFile (ids : List ItemId) (f : DriveFile) : DriveFile :=
  if ids.contains f.id then
    { f with trashed := true,
             originalParentId := coalesce f.originalParentId f.parentId }
  else f

/-- `handleMoveToTrashSelected`, the `setState` at lines 407-433: every
collected item becomes `trashed`, and `originalParentId` becomes
`originalParentId ?? parentId`. -/
def moveToTrashState (st : DriveState) (sel : List ItemId) : DriveState :=
  { st with
    folders := st.folders.map (trashUpdFolder (moveToTrashFolderIds st sel)),
    files := st.files.map (trashUpdFile (moveToTrashFileIds st sel)) }

/-- `handleRestoreSelected`, lines 464-494: the collected folder ids:
selected trashed folders, cascading through trashed child folders. -/
def restoreFolderIds (st : DriveState) (sel : List ItemId) : List ItemId :=
  cascade st.folders (fun f => f.trashed)
    ((st.folders.filter (fun f => f.trashed && sel.contains f.id)).map
      (fun f => f.id))

/-- `handleRestoreSelected`: selected trashed files plus trashed files whose
parent is a collected folder. -/
def restoreFileIds (st : DriveState) (sel : List ItemId) : List ItemId :=
  (st.files.filter (fun f => f.trashed &&
    (sel.contains f.id || parentMem (restoreFolderIds st sel) f.parentId))).map
      (fun f => f.id)

/-- The per-folder update of the `setState` in `handleRestoreSelected`
(lines 500-510): a collected folder becomes live again, reparented to
`originalParentId ?? parentId ?? rootFolderId`, with `originalParentId`
cleared. -/
def restoreUpdFolder (root : ItemId) (ids : List ItemId) (f : DriveFolder) :
    DriveFolder :=
  if ids.contains f.id then
    { f with trashed := false,
             parentId := coalesce f.originalParentId
               (coalesce f.parentId (some root)),
             originalParentId := none }
  else f

/-- The per-file update of the same `setState` (lines 511-521). -/
def restoreUpdFile (root : ItemId) (ids : List ItemId) (f : DriveFile) :
    DriveFile :=
  if ids.contains f.id then
    { f with trashed := false,
             parentId := coalesce f.originalParentId
               (coalesce f.parentId (some root)),
             originalParentId := none }
  else f

/-- `handleRestoreSelected`, the `setState` at lines 496-524: every collected
item becomes non-trashed, `parentId` becomes
`originalParentId ?? parentId ?? rootFolderId`, and `originalParentId` is
cleared. -/
def restoreState (st : DriveState) (sel : List ItemId) : DriveState :=
  { st with
    folders := st.folders.map
      (restoreUpdFolder st.rootFolderId (restoreFolderIds st sel)),
    files := st.files.map
      (restoreUpdFile st.rootFolderId (restoreFileIds st sel)) }

/-- `handlePermanentDeleteSelected`, lines 558-586: `foldersToDelete`:
selected folders and, recursively, all child folders regardless of trashed
status. -/
def foldersToDelete (st : DriveState) (sel : List ItemId) : List ItemId :=
  cascade st.folders (fun _ => true)
    ((st.folders.filter (fun f => sel.contains f.id)).map (fun f => f.id))

/-- `handlePermanentDeleteSelected`: `filesToDelete`: selected files plus
files parented anywhere in the deleted folder set. -/
def filesToDelete (st : DriveState) (sel : List ItemId) : List ItemId :=
  (st.files.filter (fun f => sel.contains f.id ||
    parentMem (foldersToDelete st sel) f.parentId)).map (fun f => f.id)

/-- `handlePermanentDeleteSelected`, the `setState` at lines 588-600: filter
out every collected folder and file. -/
def permanentDeleteState (st : DriveState) (sel : List ItemId) : DriveState :=
  { st with
    folders := st.folders.filter
      (fun f => !((foldersToDelete st sel).contains f.id)),
    files := st.files.filter
      (fun f => !((filesToDelete st sel).contains f.id)) }

/-- `handleEmptyTrash`, the `setState` at lines 622-630: drop every trashed
folder and file. -/
def emptyTrashState (st : DriveState) : DriveState :=
  { st with
    folders := st.folders.filter (fun f => !f.trashed),
    files := st.files.filter (fun f => !f.trashed) }

/-- The ids `handleEmptyTrash` computes at lines 615-620 (`foldersToDelete`
then `filesToDelete`): all currently trashed folder ids followed by all
currently trashed file ids. -/
def trashedSelection (st : DriveState) : List ItemId :=
  (st.folders.filter (fun f => f.trashed)).map (fun f => f.id) ++
  (st.files.filter (fun f => f.trashed)).map (fun f => f.id)

/-- `hasTrash` (lines 146-150): some folder or file is trashed. -/
def hasTrash (st : DriveState) : Bool :=
  st.folders.any (fun f => f.trashed) || st.files.any (fun f => f.trashed)

/-! ## View projector (`visibleFolders` / `visibleFiles`, lines 96-144) -/

/-- The folder partition of the view (lines 96-106): in `my-drive`,
non-trashed folders under the current folder; in `trash`, all trashed
folders; empty otherwise.  Note the source applies no sort to this list. -/
def visibleFolders (st : DriveState) (sec : DriveSection)
    (currentFolderId : Option ItemId) : List DriveFolder :=
  match sec with
  | DriveSection.myDrive =>
      st.folders.filter (fun f => !f.trashed && decide (f.parentId = currentFolderId))
  | DriveSection.trash => st.folders.filter (fun f => f.trashed)
  | _ => []

/-- The section filter of `visibleFiles` (lines 111-121). -/
def sectionFiles (st : DriveState) (sec : DriveSection)
    (currentFolderId : Option ItemId) : List DriveFile :=
  match sec with
  | DriveSection.myDrive =>
      st.files.filter (fun f => !f.trashed && decide (f.parentId = currentFolderId))
  | DriveSection.starred => st.files.filter (fun f => f.starred && !f.trashed)
  | DriveSection.shared => st.files.filter (fun f => f.isShared && !f.trashed)
  | DriveSection.trash => st.files.filter (fun f => f.trashed)

/-- `pat` occurs as a contiguous run inside `hay` (JavaScript
`String.prototype.includes` on the underlying character lists). -/
def charsInclude (pat : List Char) : List Char → Bool
  | [] => pat.isEmpty
  | c :: t => pat.isPrefixOf (c :: t) || charsInclude pat t

/-- JavaScript `s.toLowerCase()`, as the lowercased character list of `s`.
String comparison (`<` in the sort comparator) is the lexicographic order on
these lists, which is precisely how `String.lt` is defined. -/
def lowerKey (s : String) : List Char := s.data.map Char.toLower

/-- JavaScript `s.trim()`: strip whitespace from both ends. -/
def trimChars (l : List Char) : List Char :=
  ((l.dropWhile Char.isWhitespace).reverse.dropWhile Char.isWhitespace).reverse

/-- The search filter of `visibleFiles` (lines 123-126): when the trimmed
query is non-empty, keep files whose lowercased name contains the lowercased
trimmed query. -/
def searchFilter (search : String) (l : List DriveFile) : List DriveFile :=
  if trimChars search.data = [] then l
  else l.filter (fun f =>
    charsInclude ((trimChars search.data).map Char.toLower) (lowerKey f.name))

/-- The comparator passed to `sort` at lines 128-141, returning the sign the
source returns (`-1`, `0`, `1`). -/
def fileCmp (sb : SortBy) (sd : SortDir) (a b : DriveFile) : Int :=
  match sb with
  | SortBy.name =>
      let aStr := lowerKey a.name
      let bStr := lowerKey b.name
      if aStr < bStr then (match sd with | SortDir.asc => -1 | SortDir.desc => 1)
      else if bStr < aStr then (match sd with | SortDir.asc => 1 | SortDir.desc => -1)
      else 0
  | SortBy.modifiedAt =>
      if a.modifiedAt < b.modifiedAt then
        (match sd with | SortDir.asc => -1 | SortDir.desc => 1)
      else if b.modifiedAt < a.modifiedAt then
        (match sd with | SortDir.asc => 1 | SortDir.desc => -1)
      else 0

/-- The non-strict order induced by the comparator: `a` may stay before `b`.
JavaScript `Array.prototype.sort` is stable, so its result on a consistent
comparator is the stable sort by this relation; it is modelled by the stable
`List.insertionSort`. -/
def fileLe (sb : SortBy) (sd : SortDir) (a b : DriveFile) : Prop :=
  fileCmp sb sd a b ≤ 0

instance (sb : SortDir) (sd : SortBy) : DecidableRel (fileLe sd sb) := by
  intro a b; unfold fileLe; infer_instance

/-- `visibleFiles` (lines 108-144): section filter, then search filter, then
the stable sort by the comparator. -/
def visibleFiles (st : DriveState) (sec : DriveSection)
    (currentFolderId : Option ItemId) (search : String)
    (sb : SortBy) (sd : SortDir) : List DriveFile :=
  List.insertionSort (fileLe sb sd)
    (searchFilter search (sectionFiles st sec currentFolderId))

/-- A row of the grid/list output: a folder card or a file card. -/
def renderedRows (st : DriveState) (sec : DriveSection)
    (currentFolderId : Option ItemId) (search : String)
    (sb : SortBy) (sd : SortDir) : List (Sum DriveFolder DriveFile) :=
  (visibleFolders st sec currentFolderId).map Sum.inl ++
  (visibleFiles st sec currentFolderId search sb sd).map Sum.inr

/-- Whether a list of names is in ascending order of the case-insensitive
sort key (the order an ascending name sort would produce). -/
def namesSortedAsc : List String → Bool
  | [] => true
  | [_] => true
  | a :: b :: t => !(decide (lowerKey b < lowerKey a)) && namesSortedAsc (b :: t)

/-! ## Star / share toggles (lines 185-231) -/

/-- `handleStarToggle`: find the file; if present, optimistically flip
`starred` on every file with that id.  No other field is written. -/
def handleStarToggle (st : DriveState) (fileId : ItemId) : DriveState :=
  match st.files.find? (fun f => decide (f.id = fileId)) with
  | none => st
  | some file =>
      { st with files := st.files.map (fun f =>
          if f.id = fileId then { f with starred := !file.starred } else f) }

/-- `handleShareToggle`: same shape for `isShared`. -/
def handleShareToggle (st : DriveState) (fileId : ItemId) : DriveState :=
  match st.files.find? (fun f => decide (f.id = fileId)) with
  | none => st
  | some file =>
      { st with files := st.files.map (fun f =>
          if f.id = fileId then { f with isShared := !file.isShared } else f) }

/-! ## Folder upload (`handleFolderInputChange`, lines 295-363)

The Sync Gateway is modelled as an id allocator: `apiCreateFolder` returns a
fresh non-trashed folder with the requested name and parent, `apiUploadFile`
returns a fresh file under the requested folder.  The `pathToFolderId` memo
map is an association list (newest binding first; the source only ever sets a
path once). -/

/-- JavaScript `s.split("/")` on the character list. -/
def splitSlashChars : List Char → List (List Char)
  | [] => [[]]
  | c :: t =>
      let r := splitSlashChars t
      if c = '/' then [] :: r
      else
        match r with
        | [] => [[c]]
        | g :: gs => (c :: g) :: gs

/-- JavaScript `path.split("/")`. -/
def splitSlash (s : String) : List String :=
  (splitSlashChars s.data).map (fun l => String.mk l)

/-- JavaScript `segments.join("/")`. -/
def joinSlash : List String → String
  | [] => ""
  | [s] => s
  | s :: t => s ++ "/" ++ joinSlash t

/-- The state threaded through one invocation of `handleFolderInputChange`. -/
structure UploadCtx where
  st : DriveState
  memo : List (String × ItemId)
  nextId : ItemId
deriving Repr

/-- `pathToFolderId.get(path)` on the association-list memo. -/
def memoLookup (memo : List (String × ItemId)) (path : String) : Option ItemId :=
  match memo with
  | [] => none
  | (k, v) :: t => if k = path then some v else memoLookup t path

/-- The body of the `for (const segment of segments)` loop in
`ensureFolderPath`: extend `currentPath`, reuse the memoized folder or create
a missing one. -/
def ensureSegment (acc : String × ItemId × UploadCtx) (segment : String) :
    String × ItemId × UploadCtx :=
  let currentPath := if acc.1 = "" then segment else acc.1 ++ "/" ++ segment
  match memoLookup acc.2.2.memo currentPath with
  | some pid => (currentPath, pid, acc.2.2)
  | none =>
      let ctx := acc.2.2
      let created : DriveFolder :=
        { id := ctx.nextId, name := segment, parentId := some acc.2.1,
          trashed := false, originalParentId := none }
      (currentPath, ctx.nextId,
        { st := { ctx.st with folders := ctx.st.folders ++ [created] },
          memo := (currentPath, ctx.nextId) :: ctx.memo,
          nextId := ctx.nextId + 1 })

/-- `ensureFolderPath(path)`: return the memoized folder id, or walk the path
segments creating missing folders. -/
def ensureFolderPath (baseFolderId : ItemId) (ctx : UploadCtx) (path : String) :
    ItemId × UploadCtx :=
  match memoLookup ctx.memo path with
  | some v => (v, ctx)
  | none =>
      let segments := (splitSlash path).filter (fun s => s ≠ "")
      let r := segments.foldl ensureSegment ("", baseFolderId, ctx)
      (r.2.1, r.2.2)

/-- The body of the `for (const file of fileList)` loop: split the relative
path, ensure the folder chain, then upload the file under the final folder. -/
def uploadOneEntry (baseFolderId : ItemId) (ctx : UploadCtx) (relPath : String) :
    UploadCtx :=
  let segments := (splitSlash relPath).filter (fun s => s ≠ "")
  let fileName := (segments.getLast?).getD relPath
  let folderPath := joinSlash segments.dropLast
  let r := ensureFolderPath baseFolderId ctx folderPath
  let ctx := r.2
  let created : DriveFile :=
    { id := ctx.nextId, name := fileName, type := "", ownerId := 0,
      parentId := some r.1, sizeBytes := 0, starred := false,
      isShared := false, trashed := false, originalParentId := none,
      modifiedAt := 0 }
  { ctx with st := { ctx.st with files := ctx.st.files ++ [created] },
             nextId := ctx.nextId + 1 }

/-- One invocation of `handleFolderInputChange` on a list of relative paths:
the memo starts as `{"" ↦ baseFolderId}` and persists across the entries of
the batch; `startId` seeds the Sync Gateway's id allocator. -/
def handleFolderInputChange (st : DriveState) (baseFolderId : ItemId)
    (paths : List String) (startId : ItemId) : DriveState :=
  (paths.foldl (uploadOneEntry baseFolderId)
    { st := st, memo := [("", baseFolderId)], nextId := startId }).st

/-! ## Selection clearing (the `setSelectedIds` effects) -/

/-- The pieces of component state the bulk-action handlers touch: the drive
snapshot and the current selection. -/
structure UIState where
  drive : DriveState
  selectedIds : List ItemId
deriving Repr

/-- `handleMoveToTrashSelected` including its `!selectedIds.length` guard and
its `setSelectedIds([])`. -/
def handleMoveToTrashSelected (ui : UIState) : UIState :=
  if ui.selectedIds.isEmpty then ui
  else { drive := moveToTrashState ui.drive ui.selectedIds, selectedIds := [] }

/-- `handleRestoreSelected` including guard and selection clear. -/
def handleRestoreSelected (ui : UIState) : UIState :=
  if ui.selectedIds.isEmpty then ui
  else { drive := restoreState ui.drive ui.selectedIds, selectedIds := [] }

/-- `handlePermanentDeleteSelected` including guard and selection clear. -/
def handlePermanentDeleteSelected (ui : UIState) : UIState :=
  if ui.selectedIds.isEmpty then ui
  else { drive := permanentDeleteState ui.drive ui.selectedIds, selectedIds := [] }

/-- `handleEmptyTrash` including its `!hasTrash` guard and selection clear. -/
def handleEmptyTrash (ui : UIState) : UIState :=
  if hasTrash ui.drive then
    { drive := emptyTrashState ui.drive, selectedIds := [] }
  else ui

/-! ## Invariant predicates (spec §3) -/

/-- Every non-trashed item's `parentId` is null or references a non-trashed
folder.  This is the invariant claim C5 is about. -/
def ParentsLive (st : DriveState) : Prop :=
  (∀ f ∈ st.folders, f.trashed = false → ∀ p : ItemId, f.parentId = some p →
    ∃ g ∈ st.folders, g.id = p ∧ g.trashed = false) ∧
  (∀ x ∈ st.files, x.trashed = false → ∀ p : ItemId, x.parentId = some p →
    ∃ g ∈ st.folders, g.id = p ∧ g.trashed = false)

instance (st : DriveState) : Decidable (ParentsLive st) := by
  unfold ParentsLive; infer_instance

/-- Bounded walk up the parent chain: `true` when the chain reaches a null
parent (or a dangling reference) within `fuel` steps. -/
def chainTerminates (folders : List DriveFolder) : Nat → DriveFolder → Bool
  | 0, f => decide (f.parentId = none)
  | Nat.succ k, f =>
      match f.parentId with
      | none => true
      | some p =>
          match folders.find? (fun g => decide (g.id = p)) with
          | none => true
          | some g => chainTerminates folders k g

/-- The data-model invariants of spec §3 that are decidable on a snapshot:
a present, never-trashed root with null parent; unique ids within each
collection; live parents for live items; `originalParentId` null on
non-trashed items; and terminating (hence acyclic) parent chains. -/
def TreeInvariants (st : DriveState) : Prop :=
  (∃ r ∈ st.folders, r.id = st.rootFolderId ∧ r.parentId = none ∧
    r.trashed = false) ∧
  (st.folders.map (fun f => f.id)).Nodup ∧
  (st.files.map (fun f => f.id)).Nodup ∧
  ParentsLive st ∧
  (∀ f ∈ st.folders, f.trashed = false → f.originalParentId = none) ∧
  (∀ x ∈ st.files, x.trashed = false → x.originalParentId = none) ∧
  (∀ f ∈ st.folders, chainTerminates st.folders st.folders.length f = true)

instance (st : DriveState) : Decidable (TreeInvariants st) := by
  unfold TreeInvariants; infer_instance

/-! ## Auxiliary definitions used by the proofs -/

/-- The cascade has saturated: every folder passing `keep` whose parent is
collected is itself collected. -/
def Saturated (folders : List DriveFolder) (keep : DriveFolder → Bool)
    (acc : List ItemId) : Prop :=
  ∀ f ∈ folders, keep f = true → ∀ p, f.parentId = some p → p ∈ acc →
    f.id ∈ acc

/-- Count of folders whose id is not yet collected: the termination measure
of the cascade iteration. -/
def missingCount (folders : List DriveFolder) (acc : List ItemId) : Nat :=
  (folders.filter (fun f => !(acc.contains f.id))).length

/-! ## Concrete states used as witnesses and counterexamples -/

/-- A drive holding only its root folder. -/
def exRootOnly : DriveState := ⟨0, [⟨0, "root", none, false, none⟩], []⟩

/-- Root, a folder `B` under root, a folder `A` under `B`; nothing trashed. -/
def exNested : DriveState :=
  ⟨0, [⟨0, "root", none, false, none⟩,
       ⟨1, "B", some 0, false, none⟩,
       ⟨2, "A", some 1, false, none⟩], []⟩

/-- Root, a live subtree `F`(1) ∋ `sub`(2), a file in `sub`, and an
unrelated live file at root. -/
def exSubtree : DriveState :=
  ⟨0, [⟨0, "root", none, false, none⟩,
       ⟨1, "F", some 0, false, none⟩,
       ⟨2, "sub", some 1, false, none⟩],
      [⟨10, "doc.txt", "txt", 0, some 2, 4, false, false, false, none, 100⟩,
       ⟨11, "other.txt", "txt", 0, some 0, 4, false, false, false, none, 101⟩]⟩

/-- Root, a trashed folder with id 1, and a live file that also has id 1
(file ids need not be disjoint from folder ids). -/
def exIdCollision : DriveState :=
  ⟨0, [⟨0, "root", none, false, none⟩,
       ⟨1, "T", some 0, true, some 0⟩],
      [⟨1, "X", "txt", 0, some 0, 1, false, false, false, none, 5⟩]⟩

/-- Root, a trashed folder `T`(1) carrying `originalParentId`, a trashed file
inside it, and a live file at root. -/
def exTrashMix : DriveState :=
  ⟨0, [⟨0, "root", none, false, none⟩,
       ⟨1, "T", some 0, true, some 0⟩],
      [⟨7, "gone.txt", "txt", 0, some 1, 2, false, false, true, some 1, 50⟩,
       ⟨3, "live.txt", "txt", 0, some 0, 2, false, false, false, none, 51⟩]⟩

/-- Files named `"b"`, `"A"`, `"a"` (in that order) under the root. -/
def exSortNames : DriveState :=
  ⟨0, [⟨0, "root", none, false, none⟩],
      [⟨1, "b", "txt", 0, some 0, 1, false, false, false, none, 5⟩,
       ⟨2, "A", "txt", 0, some 0, 1, false, false, false, none, 6⟩,
       ⟨3, "a", "txt", 0, some 0, 1, false, false, false, none, 7⟩]⟩

/-- Folders named `"b"` then `"a"` (in that order) under the root. -/
def exFolderOrder : DriveState :=
  ⟨0, [⟨0, "root", none, false, none⟩,
       ⟨1, "b", some 0, false, none⟩,
       ⟨2, "a", some 0, false, none⟩], []⟩

/-- A single file with a recorded `modifiedAt` of 1000. -/
def exOneFile : DriveState :=
  ⟨0, [⟨0, "root", none, false, none⟩],
      [⟨1, "f", "txt", 0, some 0, 3, false, false, false, none, 1000⟩]⟩

/-- A UI state with one trashed file and a non-empty selection. -/
def exUI : UIState :=
  ⟨⟨0, [⟨0, "root", none, false, none⟩],
      [⟨4, "junk.txt", "txt", 0, some 0, 1, false, false, true, some 0, 9⟩]⟩,
   [4]⟩

/-- The claim-level description of the moveToTrash cascade: an id is reached
when it is the id of a selected non-trashed folder, or of a non-trashed
folder whose parent id is reached. -/
def TrashCascadeReach (st : DriveState) (sel : List ItemId) : ItemId → Prop :=
  FReach st.folders (fun f => !f.trashed)
    ((st.folders.filter (fun f => !f.trashed && sel.contains f.id)).map
      (fun f => f.id))

/-- The composite per-folder effect of `moveToTrash({fid})` immediately
followed by `restore({fid})`: first the trash update with the move cascade,
then the restore update with the restore cascade computed on the trashed
state. -/
def roundTripFolder (st : DriveState) (fid : ItemId) (g : DriveFolder) :
    DriveFolder :=
  restoreUpdFolder st.rootFolderId
    (restoreFolderIds (moveToTrashState st [fid]) [fid])
    (trashUpdFolder (moveToTrashFolderIds st [fid]) g)

/-- The composite per-file effect of the same round trip. -/
def roundTripFile (st : DriveState) (fid : ItemId) (x : DriveFile) :
    DriveFile :=
  restoreUpdFile st.rootFolderId
    (restoreFileIds (moveToTrashState st [fid]) [fid])
    (trashUpdFile (moveToTrashFileIds st [fid]) x)

/-! ## Correctness of the cascade computation

`cascade` is a bounded saturation of `cascadeStep`; the lemmas below show its
membership coincides with the inductive reachability `FReach`, i.e. with what
the recursive `collectChildren` / `markFolderAndChildren` helpers of the
source collect. -/

theorem parentMem_iff {acc : List ItemId} {p : Option ItemId} :
    parentMem acc p = true ↔ ∃ v, p = some v ∧ v ∈ acc := by
  cases p with
  | none => simp [parentMem]
  | some v => simp [parentMem]

theorem subset_cascadeStep {folders : List DriveFolder}
    {keep : DriveFolder → Bool} {acc : List ItemId} {x : ItemId}
    (hx : x ∈ acc) : x ∈ cascadeStep folders keep acc := by
  unfold cascadeStep
  exact List.mem_append_left _ hx

theorem mem_cascadeStep {folders : List DriveFolder}
    {keep : DriveFolder → Bool} {acc : List ItemId} {x : ItemId}
    (hx : x ∈ cascadeStep folders keep acc) :
    x ∈ acc ∨ ∃ f ∈ folders, f.id = x ∧ keep f = true ∧
      ∃ p, f.parentId = some p ∧ p ∈ acc := by
  unfold cascadeStep at hx
  rcases List.mem_append.mp hx with h | h
  · exact Or.inl h
  · right
    rcases List.mem_map.mp h with ⟨f, hf, hfx⟩
    rcases List.mem_filter.mp hf with ⟨hfmem, hcond⟩
    obtain ⟨⟨h1, h2⟩, _⟩ : (keep f = true ∧ parentMem acc f.parentId = true) ∧
        acc.contains f.id = false := by simpa using hcond
    rcases parentMem_iff.mp h2 with ⟨p, hp, hpacc⟩
    exact ⟨f, hfmem, hfx, h1, p, hp, hpacc⟩

theorem cascadeStep_mem_of {folders : List DriveFolder}
    {keep : DriveFolder → Bool} {acc : List ItemId} {f : DriveFolder}
    {p : ItemId} (hf : f ∈ folders) (hk : keep f = true)
    (hp : f.parentId = some p) (hpa : p ∈ acc) :
    f.id ∈ cascadeStep folders keep acc := by
  by_cases hin : f.id ∈ acc
  · exact subset_cascadeStep hin
  · unfold cascadeStep
    refine List.mem_append_right _ (List.mem_map.mpr ⟨f, ?_, rfl⟩)
    refine List.mem_filter.mpr ⟨hf, ?_⟩
    have h2 : acc.contains f.id = false := by
      cases hcc : acc.contains f.id with
      | false => rfl
      | true => exact absurd (by simpa using hcc) hin
    simp only [hk, parentMem_iff.mpr ⟨p, hp, hpa⟩, h2, Bool.and_self,
      Bool.not_false, Bool.and_true, Bool.true_and]

theorem saturated_cascadeStep_eq {folders : List DriveFolder}
    {keep : DriveFolder → Bool} {acc : List ItemId}
    (h : Saturated folders keep acc) : cascadeStep folders keep acc = acc := by
  unfold cascadeStep
  have hnil : folders.filter
      (fun f => keep f && parentMem acc f.parentId && !(acc.contains f.id)) = [] := by
    rw [List.filter_eq_nil_iff]
    intro f hf hcond
    obtain ⟨⟨h1, h2⟩, h3⟩ : (keep f = true ∧ parentMem acc f.parentId = true) ∧
        acc.contains f.id = false := by simpa using hcond
    rcases parentMem_iff.mp h2 with ⟨p, hp, hpa⟩
    have : f.id ∈ acc := h f hf h1 p hp hpa
    rw [(by simpa using this : acc.contains f.id = true)] at h3
    cases h3
  rw [hnil]
  simp

theorem saturated_cascadeIter_eq {folders : List DriveFolder}
    {keep : DriveFolder → Bool} {acc : List ItemId}
    (h : Saturated folders keep acc) :
    ∀ fuel, cascadeIter folders keep fuel acc = acc := by
  intro fuel
  induction fuel with
  | zero => rfl
  | succ k ih =>
      show cascadeIter folders keep k (cascadeStep folders keep acc) = acc
      rw [saturated_cascadeStep_eq h]
      exact ih

theorem subset_cascadeIter {folders : List DriveFolder}
    {keep : DriveFolder → Bool} :
    ∀ (fuel : Nat) (acc : List ItemId) (x : ItemId),
      x ∈ acc → x ∈ cascadeIter folders keep fuel acc := by
  intro fuel
  induction fuel with
  | zero => intro acc x hx; exact hx
  | succ k ih =>
      intro acc x hx
      exact ih (cascadeStep folders keep acc) x (subset_cascadeStep hx)

theorem length_filter_le_of_imp {α : Type} {l : List α} {p q : α → Bool}
    (h : ∀ a ∈ l, q a = true → p a = true) :
    (l.filter q).length ≤ (l.filter p).length := by
  induction l with
  | nil => simp
  | cons b t ih =>
      have iht : (t.filter q).length ≤ (t.filter p).length :=
        ih (fun a ha => h a (List.mem_cons_of_mem b ha))
      by_cases hq : q b = true
      · have hp : p b = true := h b (List.mem_cons_self b t) hq
        rw [List.filter_cons_of_pos hq, List.filter_cons_of_pos hp]
        simpa using iht
      · rw [List.filter_cons_of_neg (by simpa using hq)]
        by_cases hp : p b = true
        · rw [List.filter_cons_of_pos hp]
          exact Nat.le_succ_of_le iht
        · rw [List.filter_cons_of_neg (by simpa using hp)]
          exact iht

theorem length_filter_lt_of_mem {α : Type} {l : List α} {p q : α → Bool}
    (h : ∀ a ∈ l, q a = true → p a = true) (a0 : α) (ha : a0 ∈ l)
    (hp : p a0 = true) (hq : q a0 = false) :
    (l.filter q).length < (l.filter p).length := by
  induction l with
  | nil => cases ha
  | cons b t ih =>
      have ht : ∀ a ∈ t, q a = true → p a = true :=
        fun a ha' => h a (List.mem_cons_of_mem b ha')
      rcases List.mem_cons.mp ha with rfl | hat
      · rw [List.filter_cons_of_pos hp, List.filter_cons_of_neg (by simp [hq])]
        exact Nat.lt_succ_of_le (length_filter_le_of_imp ht)
      · by_cases hqb : q b = true
        · have hpb : p b = true := h b (List.mem_cons_self b t) hqb
          rw [List.filter_cons_of_pos hqb, List.filter_cons_of_pos hpb]
          simpa using ih ht hat
        · rw [List.filter_cons_of_neg (by simpa using hqb)]
          by_cases hpb : p b = true
          · rw [List.filter_cons_of_pos hpb]
            exact Nat.lt_succ_of_lt (ih ht hat)
          · rw [List.filter_cons_of_neg (by simpa using hpb)]
            exact ih ht hat

theorem missingCount_cascadeStep_lt {folders : List DriveFolder}
    {keep : DriveFolder → Bool} {acc : List ItemId}
    (h : ¬ Saturated folders keep acc) :
    missingCount folders (cascadeStep folders keep acc) <
      missingCount folders acc := by
  unfold Saturated at h
  push_neg at h
  rcases h with ⟨f, hf, hk, p, hp, hpa, hfid⟩
  have hstep : f.id ∈ cascadeStep folders keep acc :=
    cascadeStep_mem_of hf hk hp hpa
  refine length_filter_lt_of_mem ?_ f ?_ ?_ ?_
  · intro a _ hq
    rw [Bool.not_eq_true'] at hq ⊢
    cases hca : acc.contains a.id with
    | false => rfl
    | true =>
        have : a.id ∈ cascadeStep folders keep acc :=
          subset_cascadeStep (by simpa using hca)
        rw [(by simpa using this : (cascadeStep folders keep acc).contains a.id = true)] at hq
        cases hq
  · exact hf
  · rw [Bool.not_eq_true']
    cases hca : acc.contains f.id with
    | false => rfl
    | true => exact absurd (by simpa using hca) hfid
  · have : (cascadeStep folders keep acc).contains f.id = true := by
      simpa using hstep
    rw [this]; rfl

theorem cascadeIter_saturated {folders : List DriveFolder}
    {keep : DriveFolder → Bool} :
    ∀ (fuel : Nat) (acc : List ItemId),
      missingCount folders acc ≤ fuel →
      Saturated folders keep (cascadeIter folders keep fuel acc) := by
  intro fuel
  induction fuel with
  | zero =>
      intro acc hm
      intro f hf _ p _ _
      have : acc.contains f.id = true := by
        cases hca : acc.contains f.id with
        | true => rfl
        | false =>
            exfalso
            have hmem : f ∈ folders.filter (fun g => !(acc.contains g.id)) :=
              List.mem_filter.mpr ⟨hf, by rw [hca]; rfl⟩
            have : 0 < missingCount folders acc :=
              List.length_pos.mpr (fun hnil => by rw [hnil] at hmem; cases hmem)
            omega
      simpa using this
  | succ k ih =>
      intro acc hm
      by_cases hs : Saturated folders keep acc
      · show Saturated folders keep
          (cascadeIter folders keep k (cascadeStep folders keep acc))
        rw [saturated_cascadeStep_eq hs, saturated_cascadeIter_eq hs]
        exact hs
      · have hlt : missingCount folders (cascadeStep folders keep acc) <
            missingCount folders acc := missingCount_cascadeStep_lt hs
        exact ih (cascadeStep folders keep acc) (by omega)

theorem missingCount_le_length (folders : List DriveFolder)
    (acc : List ItemId) : missingCount folders acc ≤ folders.length :=
  List.length_filter_le _ folders

theorem cascade_saturated (folders : List DriveFolder)
    (keep : DriveFolder → Bool) (seed : List ItemId) :
    Saturated folders keep (cascade folders keep seed) :=
  cascadeIter_saturated folders.length seed (missingCount_le_length _ _)

theorem seed_subset_cascade {folders : List DriveFolder}
    {keep : DriveFolder → Bool} {seed : List ItemId} {x : ItemId}
    (hx : x ∈ seed) : x ∈ cascade folders keep seed :=
  subset_cascadeIter folders.length seed x hx

theorem cascade_sound {folders : List DriveFolder} {keep : DriveFolder → Bool}
    {seed : List ItemId} {x : ItemId}
    (hx : x ∈ cascade folders keep seed) : FReach folders keep seed x := by
  unfold cascade at hx
  have main : ∀ (fuel : Nat) (acc : List ItemId),
      (∀ y ∈ acc, FReach folders keep seed y) →
      ∀ z ∈ cascadeIter folders keep fuel acc, FReach folders keep seed z := by
    intro fuel
    induction fuel with
    | zero => intro acc hacc z hz; exact hacc z hz
    | succ k ih =>
        intro acc hacc z hz
        refine ih (cascadeStep folders keep acc) ?_ z hz
        intro y hy
        rcases mem_cascadeStep hy with h | ⟨f, hf, hfy, hk, p, hp, hpa⟩
        · exact hacc y h
        · exact hfy ▸ FReach.step hf hk hp (hacc p hpa)
  exact main folders.length seed (fun y hy => FReach.seed hy) x hx

theorem cascade_complete {folders : List DriveFolder}
    {keep : DriveFolder → Bool} {seed : List ItemId} {x : ItemId}
    (hx : FReach folders keep seed x) : x ∈ cascade folders keep seed := by
  induction hx with
  | seed h => exact seed_subset_cascade h
  | step hf hk hp _ ih =>
      exact cascade_saturated folders keep seed _ hf hk _ hp ih

theorem mem_cascade_iff {folders : List DriveFolder}
    {keep : DriveFolder → Bool} {seed : List ItemId} {x : ItemId} :
    x ∈ cascade folders keep seed ↔ FReach folders keep seed x :=
  ⟨cascade_sound, cascade_complete⟩

theorem FReach_mono_seed {folders : List DriveFolder}
    {keep : DriveFolder → Bool} {seed seed' : List ItemId}
    (hss : ∀ y ∈ seed, y ∈ seed') {x : ItemId}
    (hx : FReach folders keep seed x) : FReach folders keep seed' x := by
  induction hx with
  | seed h => exact FReach.seed (hss _ h)
  | step hf hk hp _ ih => exact FReach.step hf hk hp ih

theorem FReach_mono_keep {folders : List DriveFolder}
    {keep keep' : DriveFolder → Bool} {seed : List ItemId}
    (hkk : ∀ f ∈ folders, keep f = true → keep' f = true) {x : ItemId}
    (hx : FReach folders keep seed x) : FReach folders keep' seed x := by
  induction hx with
  | seed h => exact FReach.seed h
  | step hf hk hp _ ih => exact FReach.step hf (hkk _ hf hk) hp ih

/-- Every reached id is a seed or the id of a folder passing `keep`. -/
theorem FReach_shape {folders : List DriveFolder} {keep : DriveFolder → Bool}
    {seed : List ItemId} {x : ItemId} (hx : FReach folders keep seed x) :
    x ∈ seed ∨ ∃ f ∈ folders, f.id = x ∧ keep f = true := by
  cases hx with
  | seed h => exact Or.inl h
  | step hf hk hp _ => exact Or.inr ⟨_, hf, rfl, hk⟩

/-- Transport of reachability along a map that preserves ids and parent ids
(the trash/restore updates below are such maps). -/
theorem FReach_map {folders : List DriveFolder} {φ : DriveFolder → DriveFolder}
    {keep keep' : DriveFolder → Bool} {seed seed' : List ItemId}
    (hid : ∀ f, (φ f).id = f.id) (hpar : ∀ f, (φ f).parentId = f.parentId)
    (hseed : ∀ y ∈ seed, y ∈ seed')
    (hkeep : ∀ f ∈ folders, keep f = true → keep' (φ f) = true) {x : ItemId}
    (hx : FReach folders keep seed x) :
    FReach (folders.map φ) keep' seed' x := by
  induction hx with
  | seed h => exact FReach.seed (hseed _ h)
  | step hf hk hp _ ih =>
      rename_i f p hreach
      have : (φ f).id = f.id := hid f
      rw [← this]
      exact FReach.step (List.mem_map_of_mem φ hf) (hkeep f hf hk)
        (by rw [hpar f]; exact hp) ih

/-! ## Order facts about the sort comparator -/

theorem fileLe_iff_name (sd : SortDir) (a b : DriveFile) :
    fileLe SortBy.name sd a b ↔
      (match sd with
       | SortDir.asc => ¬ lowerKey b.name < lowerKey a.name
       | SortDir.desc => ¬ lowerKey a.name < lowerKey b.name) := by
  unfold fileLe fileCmp
  rcases lt_trichotomy (lowerKey a.name) (lowerKey b.name) with h | h | h
  · have h' : ¬ lowerKey b.name < lowerKey a.name := lt_asymm h
    cases sd <;> simp [h, h']
  · have h1 : ¬ lowerKey a.name < lowerKey b.name := by rw [h]; exact lt_irrefl _
    have h2 : ¬ lowerKey b.name < lowerKey a.name := by rw [h]; exact lt_irrefl _
    cases sd <;> simp [h1, h2]
  · have h' : ¬ lowerKey a.name < lowerKey b.name := lt_asymm h
    cases sd <;> simp [h, h']

theorem fileLe_iff_modifiedAt (sd : SortDir) (a b : DriveFile) :
    fileLe SortBy.modifiedAt sd a b ↔
      (match sd with
       | SortDir.asc => ¬ b.modifiedAt < a.modifiedAt
       | SortDir.desc => ¬ a.modifiedAt < b.modifiedAt) := by
  unfold fileLe fileCmp
  rcases lt_trichotomy a.modifiedAt b.modifiedAt with h | h | h
  · have h' : ¬ b.modifiedAt < a.modifiedAt := lt_asymm h
    cases sd <;> simp [h, h']
  · have h1 : ¬ a.modifiedAt < b.modifiedAt := by rw [h]; exact lt_irrefl _
    have h2 : ¬ b.modifiedAt < a.modifiedAt := by rw [h]; exact lt_irrefl _
    cases sd <;> simp [h1, h2]
  · have h' : ¬ a.modifiedAt < b.modifiedAt := lt_asymm h
    cases sd <;> simp [h, h']

theorem not_lt_or_not_lt {α : Type} [LinearOrder α] (x y : α) :
    ¬ x < y ∨ ¬ y < x := by
  by_cases h : x < y
  · exact Or.inr (lt_asymm h)
  · exact Or.inl h

theorem fileLe_total (sb : SortBy) (sd : SortDir) (a b : DriveFile) :
    fileLe sb sd a b ∨ fileLe sb sd b a := by
  cases sb with
  | name =>
      rw [fileLe_iff_name, fileLe_iff_name]
      cases sd
      · exact not_lt_or_not_lt _ _
      · exact not_lt_or_not_lt _ _
  | modifiedAt =>
      rw [fileLe_iff_modifiedAt, fileLe_iff_modifiedAt]
      cases sd
      · exact not_lt_or_not_lt _ _
      · exact not_lt_or_not_lt _ _

theorem fileLe_trans (sb : SortBy) (sd : SortDir) (a b c : DriveFile)
    (hab : fileLe sb sd a b) (hbc : fileLe sb sd b c) : fileLe sb sd a c := by
  cases sb with
  | name =>
      rw [fileLe_iff_name] at hab hbc ⊢
      cases sd with
      | asc =>
          exact fun hca => hbc (lt_of_lt_of_le hca (le_of_not_lt hab))
      | desc =>
          exact fun hca => hab (lt_of_lt_of_le hca (le_of_not_lt hbc))
  | modifiedAt =>
      rw [fileLe_iff_modifiedAt] at hab hbc ⊢
      cases sd with
      | asc =>
          exact fun hca => hbc (lt_of_lt_of_le hca (le_of_not_lt hab))
      | desc =>
          exact fun hca => hab (lt_of_lt_of_le hca (le_of_not_lt hbc))

/-! ## Basic bridges and membership shapes for the mutation engine -/

theorem contains_iff_mem (l : List ItemId) (x : ItemId) :
    l.contains x = true ↔ x ∈ l := by simp

theorem mem_filterMapId {l : List DriveFolder} {p : DriveFolder → Bool}
    {x : ItemId} :
    x ∈ (l.filter p).map (fun f => f.id) ↔
      ∃ f ∈ l, f.id = x ∧ p f = true := by
  constructor
  · intro h
    rcases List.mem_map.mp h with ⟨f, hf, hfx⟩
    rcases List.mem_filter.mp hf with ⟨hmem, hp⟩
    exact ⟨f, hmem, hfx, hp⟩
  · rintro ⟨f, hmem, hfx, hp⟩
    exact List.mem_map.mpr ⟨f, List.mem_filter.mpr ⟨hmem, hp⟩, hfx⟩

theorem mem_filterMapIdFile {l : List DriveFile} {p : DriveFile → Bool}
    {x : ItemId} :
    x ∈ (l.filter p).map (fun f => f.id) ↔
      ∃ f ∈ l, f.id = x ∧ p f = true := by
  constructor
  · intro h
    rcases List.mem_map.mp h with ⟨f, hf, hfx⟩
    rcases List.mem_filter.mp hf with ⟨hmem, hp⟩
    exact ⟨f, hmem, hfx, hp⟩
  · rintro ⟨f, hmem, hfx, hp⟩
    exact List.mem_map.mpr ⟨f, List.mem_filter.mpr ⟨hmem, hp⟩, hfx⟩

/-! ### Field facts about the per-item updates -/

theorem trashUpdFolder_id (ids : List ItemId) (f : DriveFolder) :
    (trashUpdFolder ids f).id = f.id := by
  unfold trashUpdFolder; split <;> rfl

theorem trashUpdFolder_parentId (ids : List ItemId) (f : DriveFolder) :
    (trashUpdFolder ids f).parentId = f.parentId := by
  unfold trashUpdFolder; split <;> rfl

theorem trashUpdFolder_pos {ids : List ItemId} {f : DriveFolder}
    (h : f.id ∈ ids) :
    trashUpdFolder ids f =
      { f with trashed := true,
               originalParentId := coalesce f.originalParentId f.parentId } := by
  unfold trashUpdFolder
  rw [if_pos ((contains_iff_mem _ _).mpr h)]

theorem trashUpdFolder_neg {ids : List ItemId} {f : DriveFolder}
    (h : f.id ∉ ids) : trashUpdFolder ids f = f := by
  unfold trashUpdFolder
  rw [if_neg (fun hc => h ((contains_iff_mem _ _).mp hc))]

theorem trashUpdFile_id (ids : List ItemId) (f : DriveFile) :
    (trashUpdFile ids f).id = f.id := by
  unfold trashUpdFile; split <;> rfl

theorem trashUpdFile_parentId (ids : List ItemId) (f : DriveFile) :
    (trashUpdFile ids f).parentId = f.parentId := by
  unfold trashUpdFile; split <;> rfl

theorem trashUpdFile_pos {ids : List ItemId} {f : DriveFile}
    (h : f.id ∈ ids) :
    trashUpdFile ids f =
      { f with trashed := true,
               originalParentId := coalesce f.originalParentId f.parentId } := by
  unfold trashUpdFile
  rw [if_pos ((contains_iff_mem _ _).mpr h)]

theorem trashUpdFile_neg {ids : List ItemId} {f : DriveFile}
    (h : f.id ∉ ids) : trashUpdFile ids f = f := by
  unfold trashUpdFile
  rw [if_neg (fun hc => h ((contains_iff_mem _ _).mp hc))]

theorem restoreUpdFolder_id (root : ItemId) (ids : List ItemId)
    (f : DriveFolder) : (restoreUpdFolder root ids f).id = f.id := by
  unfold restoreUpdFolder; split <;> rfl

theorem restoreUpdFolder_pos {root : ItemId} {ids : List ItemId}
    {f : DriveFolder} (h : f.id ∈ ids) :
    restoreUpdFolder root ids f =
      { f with trashed := false,
               parentId := coalesce f.originalParentId
                 (coalesce f.parentId (some root)),
               originalParentId := none } := by
  unfold restoreUpdFolder
  rw [if_pos ((contains_iff_mem _ _).mpr h)]

theorem restoreUpdFolder_neg {root : ItemId} {ids : List ItemId}
    {f : DriveFolder} (h : f.id ∉ ids) : restoreUpdFolder root ids f = f := by
  unfold restoreUpdFolder
  rw [if_neg (fun hc => h ((contains_iff_mem _ _).mp hc))]

theorem restoreUpdFile_id (root : ItemId) (ids : List ItemId)
    (f : DriveFile) : (restoreUpdFile root ids f).id = f.id := by
  unfold restoreUpdFile; split <;> rfl

theorem restoreUpdFile_pos {root : ItemId} {ids : List ItemId}
    {f : DriveFile} (h : f.id ∈ ids) :
    restoreUpdFile root ids f =
      { f with trashed := false,
               parentId := coalesce f.originalParentId
                 (coalesce f.parentId (some root)),
               originalParentId := none } := by
  unfold restoreUpdFile
  rw [if_pos ((contains_iff_mem _ _).mpr h)]

theorem restoreUpdFile_neg {root : ItemId} {ids : List ItemId}
    {f : DriveFile} (h : f.id ∉ ids) : restoreUpdFile root ids f = f := by
  unfold restoreUpdFile
  rw [if_neg (fun hc => h ((contains_iff_mem _ _).mp hc))]

/-! ### Membership shapes of the collected id sets -/

/-- Members of the move-to-trash folder cascade are ids of non-trashed
folders. -/
theorem moveToTrashFolderIds_shape {st : DriveState} {sel : List ItemId}
    {x : ItemId} (hx : x ∈ moveToTrashFolderIds st sel) :
    ∃ f ∈ st.folders, f.id = x ∧ f.trashed = false := by
  rcases FReach_shape (cascade_sound hx) with h | ⟨f, hf, hfx, hk⟩
  · rcases mem_filterMapId.mp h with ⟨f, hmem, hfx, hp⟩
    obtain ⟨h1, -⟩ : f.trashed = false ∧ sel.contains f.id = true := by
      simpa using hp
    exact ⟨f, hmem, hfx, h1⟩
  · exact ⟨f, hf, hfx, by simpa using hk⟩

/-- Members of the restore folder cascade are ids of trashed folders. -/
theorem restoreFolderIds_shape {st : DriveState} {sel : List ItemId}
    {x : ItemId} (hx : x ∈ restoreFolderIds st sel) :
    ∃ f ∈ st.folders, f.id = x ∧ f.trashed = true := by
  rcases FReach_shape (cascade_sound hx) with h | ⟨f, hf, hfx, hk⟩
  · rcases mem_filterMapId.mp h with ⟨f, hmem, hfx, hp⟩
    obtain ⟨h1, -⟩ : f.trashed = true ∧ sel.contains f.id = true := by
      simpa using hp
    exact ⟨f, hmem, hfx, h1⟩
  · exact ⟨f, hf, hfx, hk⟩

/-- Every id in the move-to-trash folder cascade is reachable from the
selection through parent links (in particular it lies in the selected
subtrees). -/
theorem moveToTrashFolderIds_reach {st : DriveState} {sel : List ItemId}
    {x : ItemId} (hx : x ∈ moveToTrashFolderIds st sel) :
    FReach st.folders (fun _ => true) sel x := by
  have h := cascade_sound hx
  clear hx
  induction h with
  | seed hs =>
      rcases mem_filterMapId.mp hs with ⟨f, hmem, hfx, hp⟩
      obtain ⟨-, h2⟩ : f.trashed = false ∧ sel.contains f.id = true := by
        simpa using hp
      exact hfx ▸ FReach.seed ((contains_iff_mem _ _).mp h2)
  | step hf _ hp _ ih => exact FReach.step hf rfl hp ih

/-- Same for the permanent-delete folder cascade. -/
theorem foldersToDelete_reach {st : DriveState} {sel : List ItemId}
    {x : ItemId} (hx : x ∈ foldersToDelete st sel) :
    FReach st.folders (fun _ => true) sel x := by
  have h := cascade_sound hx
  clear hx
  induction h with
  | seed hs =>
      rcases mem_filterMapId.mp hs with ⟨f, hmem, hfx, hp⟩
      exact hfx ▸ FReach.seed ((contains_iff_mem _ _).mp hp)
  | step hf _ hp _ ih => exact FReach.step hf rfl hp ih

/-- The move-to-trash update does not change folder ids. -/
theorem moveToTrash_folders_map_id (st : DriveState) (sel : List ItemId) :
    (moveToTrashState st sel).folders.map (fun f => f.id) =
      st.folders.map (fun f => f.id) := by
  show (st.folders.map _).map _ = _
  rw [List.map_map]
  refine List.map_congr_left ?_
  intro f _
  exact trashUpdFolder_id _ f

/-- The move-to-trash update does not change file ids. -/
theorem moveToTrash_files_map_id (st : DriveState) (sel : List ItemId) :
    (moveToTrashState st sel).files.map (fun f => f.id) =
      st.files.map (fun f => f.id) := by
  show (st.files.map _).map _ = _
  rw [List.map_map]
  refine List.map_congr_left ?_
  intro f _
  exact trashUpdFile_id _ f

/-- The restore folder cascade is closed under adding trashed children. -/
theorem restoreFolderIds_closed {st : DriveState} {sel : List ItemId}
    {f : DriveFolder} {p : ItemId} (hf : f ∈ st.folders)
    (hk : f.trashed = true) (hp : f.parentId = some p)
    (hpm : p ∈ restoreFolderIds st sel) : f.id ∈ restoreFolderIds st sel :=
  cascade_saturated st.folders (fun f => f.trashed) _ f hf hk p hp hpm

/-- The move-to-trash folder cascade is closed under adding non-trashed
children. -/
theorem moveToTrashFolderIds_closed {st : DriveState} {sel : List ItemId}
    {f : DriveFolder} {p : ItemId} (hf : f ∈ st.folders)
    (hk : f.trashed = false) (hp : f.parentId = some p)
    (hpm : p ∈ moveToTrashFolderIds st sel) :
    f.id ∈ moveToTrashFolderIds st sel :=
  cascade_saturated st.folders (fun f => !f.trashed) _ f hf (by simp [hk]) p hp hpm

/-- The permanent-delete folder cascade is closed under adding children. -/
theorem foldersToDelete_closed {st : DriveState} {sel : List ItemId}
    {f : DriveFolder} {p : ItemId} (hf : f ∈ st.folders)
    (hp : f.parentId = some p) (hpm : p ∈ foldersToDelete st sel) :
    f.id ∈ foldersToDelete st sel :=
  cascade_saturated st.folders (fun _ => true) _ f hf rfl p hp hpm

/-- Every folder id trashed by `moveToTrash` is collected again by a
`restore` of the same selection run on the updated state. -/
theorem moveToTrashFolderIds_subset_restore {st : DriveState}
    {sel : List ItemId} {x : ItemId} (hx : x ∈ moveToTrashFolderIds st sel) :
    x ∈ restoreFolderIds (moveToTrashState st sel) sel := by
  have h := cascade_sound hx
  clear hx
  induction h with
  | seed hs =>
      rcases mem_filterMapId.mp hs with ⟨f, hmem, hfx, hp⟩
      subst hfx
      have hfM : f.id ∈ moveToTrashFolderIds st sel :=
        seed_subset_cascade (mem_filterMapId.mpr ⟨f, hmem, rfl, hp⟩)
      obtain ⟨-, h2⟩ : f.trashed = false ∧ sel.contains f.id = true := by
        simpa using hp
      refine seed_subset_cascade (mem_filterMapId.mpr
        ⟨trashUpdFolder (moveToTrashFolderIds st sel) f,
         List.mem_map_of_mem _ hmem, trashUpdFolder_id _ f, ?_⟩)
      rw [trashUpdFolder_pos hfM]
      simpa using h2
  | step hf hk hp hr ih =>
      rename_i f p
      have hfM : f.id ∈ moveToTrashFolderIds st sel :=
        cascade_complete (FReach.step hf hk hp hr)
      have hmem1 : trashUpdFolder (moveToTrashFolderIds st sel) f ∈
          (moveToTrashState st sel).folders := List.mem_map_of_mem _ hf
      have hkeep : (trashUpdFolder (moveToTrashFolderIds st sel) f).trashed = true := by
        rw [trashUpdFolder_pos hfM]
      have hpar : (trashUpdFolder (moveToTrashFolderIds st sel) f).parentId = some p :=
        (trashUpdFolder_parentId _ f).trans hp
      have hsat := restoreFolderIds_closed hmem1 hkeep hpar ih
      rw [trashUpdFolder_id] at hsat
      exact hsat

/-- Every file id trashed by `moveToTrash` is collected again by a `restore`
of the same selection run on the updated state. -/
theorem moveToTrashFileIds_subset_restore {st : DriveState}
    {sel : List ItemId} {x : ItemId} (hx : x ∈ moveToTrashFileIds st sel) :
    x ∈ restoreFileIds (moveToTrashState st sel) sel := by
  rcases mem_filterMapIdFile.mp hx with ⟨y, hy, hyx, hcond⟩
  subst hyx
  obtain ⟨-, h2⟩ : y.trashed = false ∧
      (sel.contains y.id = true ∨
       parentMem (moveToTrashFolderIds st sel) y.parentId = true) := by
    have h := hcond
    simp only [Bool.and_eq_true, Bool.or_eq_true] at h
    exact ⟨by simpa using h.1, h.2⟩
  have hymem : trashUpdFile (moveToTrashFileIds st sel) y ∈
      (moveToTrashState st sel).files := List.mem_map_of_mem _ hy
  refine mem_filterMapIdFile.mpr ⟨_, hymem, trashUpdFile_id _ y, ?_⟩
  have htr : (trashUpdFile (moveToTrashFileIds st sel) y).trashed = true := by
    rw [trashUpdFile_pos hx]
  rcases h2 with h2 | h2
  · have hsel : sel.contains (trashUpdFile (moveToTrashFileIds st sel) y).id = true := by
      rw [trashUpdFile_id]; exact h2
    rw [htr, hsel]
    simp
  · rcases parentMem_iff.mp h2 with ⟨p, hp, hpM⟩
    have hpR : p ∈ restoreFolderIds (moveToTrashState st sel) sel :=
      moveToTrashFolderIds_subset_restore hpM
    have hpm : parentMem (restoreFolderIds (moveToTrashState st sel) sel)
        (trashUpdFile (moveToTrashFileIds st sel) y).parentId = true := by
      rw [trashUpdFile_parentId]
      exact parentMem_iff.mpr ⟨p, hp, hpR⟩
    rw [htr, hpm]
    simp

/-- Folder ids collected by a restore that immediately follows a
move-to-trash are reachable from the selection in the original state. -/
theorem restoreFolderIds_after_move_reach {st : DriveState}
    {sel : List ItemId} {x : ItemId}
    (hx : x ∈ restoreFolderIds (moveToTrashState st sel) sel) :
    FReach st.folders (fun _ => true) sel x := by
  have h := cascade_sound hx
  clear hx
  induction h with
  | seed hs =>
      rcases mem_filterMapId.mp hs with ⟨f, hmem, hfx, hp⟩
      obtain ⟨-, h2⟩ : f.trashed = true ∧ sel.contains f.id = true := by
        simpa using hp
      exact hfx ▸ FReach.seed ((contains_iff_mem _ _).mp h2)
  | step hf hk hp hsub ih =>
      rename_i f p
      rcases List.mem_map.mp hf with ⟨f0, hf0, hff0⟩
      have hid : f.id = f0.id := by rw [← hff0, trashUpdFolder_id]
      have hpar : f0.parentId = some p := by
        rw [← trashUpdFolder_parentId (moveToTrashFolderIds st sel) f0, hff0]
        exact hp
      rw [hid]
      exact FReach.step hf0 rfl hpar ih

/-! ## moveToTrash preserves live parents -/

/-- One `moveToTrash` application preserves the invariant that every
non-trashed item's parent reference points at a non-trashed folder: the
cascade is closed under non-trashed children, so a live parent of a
surviving live item can never have been collected. -/
theorem parentsLive_moveToTrash (st : DriveState) (sel : List ItemId)
    (h : ParentsLive st) : ParentsLive (moveToTrashState st sel) := by
  constructor
  · intro f' hf' hnt p hp
    rcases List.mem_map.mp hf' with ⟨f, hf, hff⟩
    by_cases hc : f.id ∈ moveToTrashFolderIds st sel
    · exfalso
      rw [← hff, trashUpdFolder_pos hc] at hnt
      cases hnt
    · rw [← hff, trashUpdFolder_neg hc] at hnt hp
      rcases h.1 f hf hnt p hp with ⟨g, hg, hgid, hgnt⟩
      have hgM : g.id ∉ moveToTrashFolderIds st sel := by
        intro hgM
        exact hc (moveToTrashFolderIds_closed hf hnt hp (hgid ▸ hgM))
      refine ⟨trashUpdFolder (moveToTrashFolderIds st sel) g,
        List.mem_map_of_mem _ hg, ?_, ?_⟩
      · rw [trashUpdFolder_neg hgM]; exact hgid
      · rw [trashUpdFolder_neg hgM]; exact hgnt
  · intro x' hx' hnt p hp
    rcases List.mem_map.mp hx' with ⟨x, hx, hxx⟩
    by_cases hc : x.id ∈ moveToTrashFileIds st sel
    · exfalso
      rw [← hxx, trashUpdFile_pos hc] at hnt
      cases hnt
    · rw [← hxx, trashUpdFile_neg hc] at hnt hp
      rcases h.2 x hx hnt p hp with ⟨g, hg, hgid, hgnt⟩
      have hgM : g.id ∉ moveToTrashFolderIds st sel := by
        intro hgM
        refine hc (mem_filterMapIdFile.mpr ⟨x, hx, rfl, ?_⟩)
        have hpm : parentMem (moveToTrashFolderIds st sel) x.parentId = true :=
          parentMem_iff.mpr ⟨p, hp, hgid ▸ hgM⟩
        simp [hnt, hpm]
      refine ⟨trashUpdFolder (moveToTrashFolderIds st sel) g,
        List.mem_map_of_mem _ hg, ?_, ?_⟩
      · rw [trashUpdFolder_neg hgM]; exact hgid
      · rw [trashUpdFolder_neg hgM]; exact hgnt

/-! ## Characterization of the moveToTrash cascade in claim-level terms -/

/-- Inversion for `FReach`. -/
theorem FReach_inv {folders : List DriveFolder} {keep : DriveFolder → Bool}
    {seed : List ItemId} {x : ItemId} (h : FReach folders keep seed x) :
    x ∈ seed ∨ ∃ f ∈ folders, f.id = x ∧ keep f = true ∧
      ∃ p, f.parentId = some p ∧ FReach folders keep seed p := by
  cases h with
  | seed hs => exact Or.inl hs
  | step hf hk hp hsub => exact Or.inr ⟨_, hf, rfl, hk, _, hp, hsub⟩

/-- With unique folder ids, a folder's id is collected by the moveToTrash
folder cascade exactly when the folder is a selected non-trashed folder or a
non-trashed folder whose parent id is reached by the cascade. -/
theorem mem_moveToTrashFolderIds_iff {st : DriveState} {sel : List ItemId}
    (hnfo : (st.folders.map (fun f => f.id)).Nodup) {g : DriveFolder}
    (hg : g ∈ st.folders) :
    g.id ∈ moveToTrashFolderIds st sel ↔
      (g.trashed = false ∧ (g.id ∈ sel ∨
        ∃ p, g.parentId = some p ∧ TrashCascadeReach st sel p)) := by
  constructor
  · intro h
    rcases FReach_inv (cascade_sound h) with hs | ⟨f, hf, hfid, hk, p, hp, hsub⟩
    · rcases mem_filterMapId.mp hs with ⟨f, hf, hfid, hcond⟩
      obtain ⟨h1, h2⟩ : f.trashed = false ∧ sel.contains f.id = true := by
        simpa using hcond
      have hfg : f = g := List.inj_on_of_nodup_map hnfo hf hg hfid
      subst hfg
      exact ⟨h1, Or.inl ((contains_iff_mem _ _).mp h2)⟩
    · have hfg : f = g := List.inj_on_of_nodup_map hnfo hf hg hfid
      subst hfg
      exact ⟨by simpa using hk, Or.inr ⟨p, hp, hsub⟩⟩
  · rintro ⟨htr, hsel | ⟨p, hp, hsub⟩⟩
    · refine seed_subset_cascade (mem_filterMapId.mpr ⟨g, hg, rfl, ?_⟩)
      rw [htr, (contains_iff_mem _ _).mpr hsel]
      rfl
    · exact cascade_complete (FReach.step hg (by simp [htr]) hp hsub)

/-- With unique file ids, a file's id is collected by the moveToTrash file
set exactly when the file is non-trashed and either selected or parented at
a cascade-reached folder. -/
theorem mem_moveToTrashFileIds_iff {st : DriveState} {sel : List ItemId}
    (hnfi : (st.files.map (fun f => f.id)).Nodup) {x : DriveFile}
    (hx : x ∈ st.files) :
    x.id ∈ moveToTrashFileIds st sel ↔
      (x.trashed = false ∧ (x.id ∈ sel ∨
        ∃ p, x.parentId = some p ∧ TrashCascadeReach st sel p)) := by
  constructor
  · intro h
    rcases mem_filterMapIdFile.mp h with ⟨y, hy, hyid, hcond⟩
    have hyx : y = x := List.inj_on_of_nodup_map hnfi hy hx hyid
    subst hyx
    obtain ⟨h1, h2⟩ : y.trashed = false ∧
        (sel.contains y.id = true ∨
         parentMem (moveToTrashFolderIds st sel) y.parentId = true) := by
      have hc := hcond
      simp only [Bool.and_eq_true, Bool.or_eq_true] at hc
      exact ⟨by simpa using hc.1, hc.2⟩
    refine ⟨h1, ?_⟩
    rcases h2 with h2 | h2
    · exact Or.inl ((contains_iff_mem _ _).mp h2)
    · rcases parentMem_iff.mp h2 with ⟨p, hp, hpM⟩
      exact Or.inr ⟨p, hp, cascade_sound hpM⟩
  · rintro ⟨htr, hsel | ⟨p, hp, hsub⟩⟩
    · refine mem_filterMapIdFile.mpr ⟨x, hx, rfl, ?_⟩
      rw [htr, (contains_iff_mem _ _).mpr hsel]
      rfl
    · refine mem_filterMapIdFile.mpr ⟨x, hx, rfl, ?_⟩
      have hpm : parentMem (moveToTrashFolderIds st sel) x.parentId = true :=
        parentMem_iff.mpr ⟨p, hp, cascade_complete hsub⟩
      rw [htr, hpm]
      simp

/-! ## Claims about the view projector, toggles, upload and selection -/

/-- C6 (counterexample): the claim says that for every sort configuration the
visible folders appear in the order given by the sort key.  In `my-drive`
with two folders named `"b"` then `"a"` under the current folder, the
projected folder partition is `["b", "a"]`, which is not in ascending
name-key order: the source never sorts `visibleFolders`. -/
theorem visibleFolders_not_sorted_counterexample :
    (visibleFolders exFolderOrder DriveSection.myDrive (some 0)).map
      (fun f => f.name) = ["b", "a"] ∧
    namesSortedAsc ((visibleFolders exFolderOrder DriveSection.myDrive (some 0)).map
      (fun f => f.name)) = false := by decide

/-- C6 (amended): the file partition is stably sorted by the configured
comparator and is a permutation of the filtered files; the folder partition
is only filtered — it is a sublist of the stored folder list, hence in input
order, for every sort configuration; and the rendered output places all
folder rows before all file rows. -/
theorem visible_partition_order (st : DriveState) (sec : DriveSection)
    (cfid : Option ItemId) (q : String) (sb : SortBy) (sd : SortDir) :
    List.Sublist (visibleFolders st sec cfid) st.folders ∧
    List.Sorted (fileLe sb sd) (visibleFiles st sec cfid q sb sd) ∧
    List.Perm (visibleFiles st sec cfid q sb sd)
      (searchFilter q (sectionFiles st sec cfid)) ∧
    renderedRows st sec cfid q sb sd =
      (visibleFolders st sec cfid).map Sum.inl ++
      (visibleFiles st sec cfid q sb sd).map Sum.inr := by
  refine ⟨?_, ?_, ?_, rfl⟩
  · cases sec <;>
      first
        | exact List.filter_sublist st.folders
        | exact List.nil_sublist st.folders
  · haveI : IsTotal DriveFile (fileLe sb sd) := ⟨fileLe_total sb sd⟩
    haveI : IsTrans DriveFile (fileLe sb sd) := ⟨fileLe_trans sb sd⟩
    exact List.sorted_insertionSort (fileLe sb sd) _
  · exact List.perm_insertionSort (fileLe sb sd) _

/-- C7: sorting by name is case-insensitive and stable: files named
`"b"`, `"A"`, `"a"` (ids 1, 2, 3, in that input order) sorted ascending by
name yield `["A", "a", "b"]`, and the tie between `"A"` (id 2) and `"a"`
(id 3) keeps the original relative order. -/
theorem name_sort_case_insensitive_stable :
    (visibleFiles exSortNames DriveSection.myDrive (some 0) ""
      SortBy.name SortDir.asc).map (fun f => (f.id, f.name)) =
    [(2, "A"), (3, "a"), (1, "b")] := by decide

/-- C8: in one `handleFolderInputChange` batch, uploading
`"project/notes/readme.txt"` into a drive holding only the root creates
exactly the folders `project` (under root) and `notes` (under `project`) and
one file under `notes`; processing `"project/todo.txt"` afterwards creates
zero additional folders — the path memo reuses the existing `project` — and
places the file under `project`. -/
theorem folder_upload_creates_prefixes_once :
    ((handleFolderInputChange exRootOnly 0 ["project/notes/readme.txt"] 1).folders.map
      (fun f => (f.id, f.name, f.parentId)) =
     [(0, "root", none), (1, "project", some 0), (2, "notes", some 1)]) ∧
    ((handleFolderInputChange exRootOnly 0 ["project/notes/readme.txt"] 1).files.map
      (fun f => (f.id, f.name, f.parentId)) = [(3, "readme.txt", some 2)]) ∧
    ((handleFolderInputChange exRootOnly 0
        ["project/notes/readme.txt", "project/todo.txt"] 1).folders =
     (handleFolderInputChange exRootOnly 0 ["project/notes/readme.txt"] 1).folders) ∧
    ((handleFolderInputChange exRootOnly 0
        ["project/notes/readme.txt", "project/todo.txt"] 1).files.map
      (fun f => (f.id, f.name, f.parentId)) =
     [(3, "readme.txt", some 2), (4, "todo.txt", some 1)]) := by decide

/-- C9 (counterexample): the claim says the local optimistic apply of
`toggleStar` updates the file's `modifiedAt`.  On a file with
`modifiedAt = 1000`, `handleStarToggle` flips `starred` but leaves
`modifiedAt` at exactly its previous value: the optimistic `setState` writes
only the boolean. -/
theorem toggleStar_keeps_modifiedAt_counterexample :
    (handleStarToggle exOneFile 1).files.map
      (fun f => (f.starred, f.modifiedAt)) = [(true, 1000)] ∧
    exOneFile.files.map (fun f => (f.starred, f.modifiedAt)) = [(false, 1000)] := by
  decide

/-- C9 (amended): the local optimistic apply of `toggleStar` / `toggleShare`
never changes any file's `modifiedAt` (or `id`); when the file is found, the
apply flips exactly the targeted boolean.  Any timestamp change can only
arrive through server-provided state. -/
theorem toggle_local_apply_preserves_modifiedAt (st : DriveState) (fid : ItemId) :
    ((handleStarToggle st fid).files.map (fun f => (f.id, f.modifiedAt)) =
      st.files.map (fun f => (f.id, f.modifiedAt))) ∧
    ((handleShareToggle st fid).files.map (fun f => (f.id, f.modifiedAt)) =
      st.files.map (fun f => (f.id, f.modifiedAt))) ∧
    (∀ file, st.files.find? (fun f => decide (f.id = fid)) = some file →
      (handleStarToggle st fid).files = st.files.map (fun f =>
        if f.id = fid then { f with starred := !file.starred } else f)) := by
  refine ⟨?_, ?_, ?_⟩
  · unfold handleStarToggle
    cases hfind : st.files.find? (fun f => decide (f.id = fid)) with
    | none => rfl
    | some file =>
        show (st.files.map _).map _ = _
        rw [List.map_map]
        refine List.map_congr_left ?_
        intro f _
        by_cases h : f.id = fid <;> simp [h]
  · unfold handleShareToggle
    cases hfind : st.files.find? (fun f => decide (f.id = fid)) with
    | none => rfl
    | some file =>
        show (st.files.map _).map _ = _
        rw [List.map_map]
        refine List.map_congr_left ?_
        intro f _
        by_cases h : f.id = fid <;> simp [h]
  · intro file hfind
    unfold handleStarToggle
    rw [hfind]

/-- Witness for the amended C9 theorem at a concrete state: the find
hypothesis is discharged on `exOneFile`. -/
theorem toggle_local_apply_preserves_modifiedAt_witness :
    (handleStarToggle exOneFile 1).files = exOneFile.files.map (fun f =>
      if f.id = 1 then { f with starred := !false } else f) :=
  (toggle_local_apply_preserves_modifiedAt exOneFile 1).2.2
    ⟨1, "f", "txt", 0, some 0, 3, false, false, false, none, 1000⟩ (by decide)

/-- C10: after each of the four bulk handlers runs, the selection is empty:
the three selection-driven handlers always end with an empty selection (when
the selection was empty they are a no-op on an already empty selection,
otherwise they clear it), and `handleEmptyTrash` clears it whenever its
local apply happens, i.e. whenever some item is trashed. -/
theorem bulk_ops_clear_selection (ui : UIState) :
    (handleMoveToTrashSelected ui).selectedIds = [] ∧
    (handleRestoreSelected ui).selectedIds = [] ∧
    (handlePermanentDeleteSelected ui).selectedIds = [] ∧
    (hasTrash ui.drive = true → (handleEmptyTrash ui).selectedIds = []) := by
  refine ⟨?_, ?_, ?_, ?_⟩
  · unfold handleMoveToTrashSelected
    by_cases h : ui.selectedIds.isEmpty
    · rw [if_pos h]; exact List.isEmpty_iff.mp h
    · rw [if_neg h]
  · unfold handleRestoreSelected
    by_cases h : ui.selectedIds.isEmpty
    · rw [if_pos h]; exact List.isEmpty_iff.mp h
    · rw [if_neg h]
  · unfold handlePermanentDeleteSelected
    by_cases h : ui.selectedIds.isEmpty
    · rw [if_pos h]; exact List.isEmpty_iff.mp h
    · rw [if_neg h]
  · intro h
    unfold handleEmptyTrash
    rw [if_pos h]

/-- Witness for C10 at a concrete state with trash present. -/
theorem bulk_ops_clear_selection_witness :
    hasTrash exUI.drive = true ∧ (handleEmptyTrash exUI).selectedIds = [] :=
  ⟨by decide, (bulk_ops_clear_selection exUI).2.2.2 (by decide)⟩

/-! ## Claims C3 and C5 -/

/-- C3: `permanentDelete` on a selection containing folder `F` removes `F`,
every folder reachable from `F` through `parentId` links (regardless of
trashed status), every file whose parent is in that set together with all
directly-selected files, and afterwards no remaining folder or file has a
`parentId` equal to any removed folder's id. -/
theorem permanentDelete_removes_subtree (st : DriveState) (sel : List ItemId)
    (F : DriveFolder) (hF : F ∈ st.folders) (hFsel : F.id ∈ sel) :
    (∀ g ∈ st.folders, FReach st.folders (fun _ => true) [F.id] g.id →
       g ∉ (permanentDeleteState st sel).folders) ∧
    (∀ x ∈ st.files, (x.id ∈ sel ∨ ∃ p, x.parentId = some p ∧
        FReach st.folders (fun _ => true) [F.id] p) →
       x ∉ (permanentDeleteState st sel).files) ∧
    (∀ d ∈ st.folders, d ∉ (permanentDeleteState st sel).folders →
       (∀ g ∈ (permanentDeleteState st sel).folders, g.parentId ≠ some d.id) ∧
       (∀ x ∈ (permanentDeleteState st sel).files, x.parentId ≠ some d.id)) := by
  have hseedF : F.id ∈ foldersToDelete st sel :=
    seed_subset_cascade (mem_filterMapId.mpr
      ⟨F, hF, rfl, (contains_iff_mem _ _).mpr hFsel⟩)
  have hreachD : ∀ {x : ItemId}, FReach st.folders (fun _ => true) [F.id] x →
      x ∈ foldersToDelete st sel := by
    intro x hx
    induction hx with
    | seed hs =>
        simp only [List.mem_singleton] at hs
        subst hs
        exact hseedF
    | step hf hk hp hsub ih => exact foldersToDelete_closed hf hp ih
  refine ⟨?_, ?_, ?_⟩
  · intro g hg hreach hmem
    rcases List.mem_filter.mp hmem with ⟨-, hpred⟩
    have : (foldersToDelete st sel).contains g.id = true :=
      (contains_iff_mem _ _).mpr (hreachD hreach)
    rw [this] at hpred
    cases hpred
  · intro x hx hcase hmem
    rcases List.mem_filter.mp hmem with ⟨-, hpred⟩
    have hxDf : x.id ∈ filesToDelete st sel := by
      refine mem_filterMapIdFile.mpr ⟨x, hx, rfl, ?_⟩
      rcases hcase with hsel | ⟨p, hp, hr⟩
      · rw [(contains_iff_mem _ _).mpr hsel, Bool.true_or]
      · have hpm : parentMem (foldersToDelete st sel) x.parentId = true :=
          parentMem_iff.mpr ⟨p, hp, hreachD hr⟩
        rw [hpm, Bool.or_true]
    have : (filesToDelete st sel).contains x.id = true :=
      (contains_iff_mem _ _).mpr hxDf
    rw [this] at hpred
    cases hpred
  · intro d hd hdnot
    have hdD : d.id ∈ foldersToDelete st sel := by
      by_contra hnot
      refine hdnot (List.mem_filter.mpr ⟨hd, ?_⟩)
      rw [(by simpa using hnot : (foldersToDelete st sel).contains d.id = false)]
      rfl
    constructor
    · intro g hg heq
      rcases List.mem_filter.mp hg with ⟨hgmem, hgpred⟩
      have : (foldersToDelete st sel).contains g.id = true :=
        (contains_iff_mem _ _).mpr (foldersToDelete_closed hgmem heq hdD)
      rw [this] at hgpred
      cases hgpred
    · intro x hx heq
      rcases List.mem_filter.mp hx with ⟨hxmem, hxpred⟩
      have hxDf : x.id ∈ filesToDelete st sel := by
        refine mem_filterMapIdFile.mpr ⟨x, hxmem, rfl, ?_⟩
        have hpm : parentMem (foldersToDelete st sel) x.parentId = true :=
          parentMem_iff.mpr ⟨d.id, heq, hdD⟩
        rw [hpm, Bool.or_true]
      have : (filesToDelete st sel).contains x.id = true :=
        (contains_iff_mem _ _).mpr hxDf
      rw [this] at hxpred
      cases hxpred

/-- Witness for C3 on a concrete state: deleting `F`(1) in `exSubtree`
removes its child folder `sub`(2). -/
theorem permanentDelete_removes_subtree_witness :
    (⟨2, "sub", some 1, false, none⟩ : DriveFolder) ∉
      (permanentDeleteState exSubtree [1]).folders :=
  (permanentDelete_removes_subtree exSubtree [1] ⟨1, "F", some 0, false, none⟩
      (by decide) (by decide)).1
    ⟨2, "sub", some 1, false, none⟩ (by decide)
    (FReach.step (by decide) rfl rfl (FReach.seed (by decide)))

/-- C5 (counterexample): the claim quantifies over all sequences of
moveToTrash and restore operations.  Starting from `exNested`
(root ← `B`(1) ← `A`(2)), which satisfies the data-model tree invariants,
`moveToTrash({1})` trashes `B` and `A`; `restore({2})` then restores `A`
alone, re-attaching it under the still-trashed `B`: a non-trashed item whose
parent is a trashed folder. -/
theorem trash_restore_breaks_live_parent_counterexample :
    TreeInvariants exNested ∧
    ¬ ParentsLive (restoreState (moveToTrashState exNested [1]) [2]) := by
  decide

/-- C5 (amended): every sequence of `moveToTrash` operations (with arbitrary
selections) preserves the invariant that each non-trashed item's `parentId`
is null or references a non-trashed folder; `restore` does not preserve it
in general, because restoring a trashed descendant without its ancestor
re-parents a live item under a still-trashed folder. -/
theorem moveToTrash_sequences_preserve_live_parents (sels : List (List ItemId))
    (st : DriveState) (h : ParentsLive st) :
    ParentsLive (sels.foldl moveToTrashState st) := by
  induction sels generalizing st with
  | nil => exact h
  | cons s t ih => exact ih (moveToTrashState st s) (parentsLive_moveToTrash st s h)

/-- Witness for the amended C5 theorem: a two-step trash sequence on a
concrete state. -/
theorem moveToTrash_sequences_preserve_live_parents_witness :
    ParentsLive (List.foldl moveToTrashState exNested [[1], [2]]) :=
  moveToTrash_sequences_preserve_live_parents [[1], [2]] exNested (by decide)

/-! ## Claims C2 and C4 -/

/-- C2: in a state with unique folder and file ids (a data-model invariant),
`moveToTrash(sel)` updates exactly the cascade closure: every selected
non-trashed folder or file and, recursively, every non-trashed item whose
parent folder is in the closure, gets `trashed := true` and
`originalParentId := originalParentId ?? parentId` — so an already-set
`originalParentId` is never overwritten — and every item outside the closure
is returned unchanged. -/
theorem moveToTrash_cascade_spec (st : DriveState) (sel : List ItemId)
    (hnfo : (st.folders.map (fun f => f.id)).Nodup)
    (hnfi : (st.files.map (fun f => f.id)).Nodup) :
    ((moveToTrashState st sel).folders.length = st.folders.length ∧
     (moveToTrashState st sel).files.length = st.files.length) ∧
    (∀ i (h1 : i < st.folders.length)
        (h2 : i < (moveToTrashState st sel).folders.length),
      ((st.folders[i].trashed = false ∧ (st.folders[i].id ∈ sel ∨
          ∃ p, st.folders[i].parentId = some p ∧ TrashCascadeReach st sel p)) →
        (moveToTrashState st sel).folders[i] =
          { st.folders[i] with
            trashed := true,
            originalParentId := coalesce st.folders[i].originalParentId
              st.folders[i].parentId }) ∧
      (¬ (st.folders[i].trashed = false ∧ (st.folders[i].id ∈ sel ∨
          ∃ p, st.folders[i].parentId = some p ∧ TrashCascadeReach st sel p)) →
        (moveToTrashState st sel).folders[i] = st.folders[i])) ∧
    (∀ i (h1 : i < st.files.length)
        (h2 : i < (moveToTrashState st sel).files.length),
      ((st.files[i].trashed = false ∧ (st.files[i].id ∈ sel ∨
          ∃ p, st.files[i].parentId = some p ∧ TrashCascadeReach st sel p)) →
        (moveToTrashState st sel).files[i] =
          { st.files[i] with
            trashed := true,
            originalParentId := coalesce st.files[i].originalParentId
              st.files[i].parentId }) ∧
      (¬ (st.files[i].trashed = false ∧ (st.files[i].id ∈ sel ∨
          ∃ p, st.files[i].parentId = some p ∧ TrashCascadeReach st sel p)) →
        (moveToTrashState st sel).files[i] = st.files[i])) := by
  refine ⟨⟨?_, ?_⟩, ?_, ?_⟩
  · exact List.length_map st.folders _
  · exact List.length_map st.files _
  · intro i h1 h2
    have hmem : st.folders[i] ∈ st.folders := List.getElem_mem h1
    have hmap : (moveToTrashState st sel).folders[i] =
        trashUpdFolder (moveToTrashFolderIds st sel) st.folders[i] :=
      List.getElem_map _
    constructor
    · intro hA
      rw [hmap, trashUpdFolder_pos
        ((mem_moveToTrashFolderIds_iff hnfo hmem).mpr hA)]
    · intro hNA
      rw [hmap, trashUpdFolder_neg
        (fun hc => hNA ((mem_moveToTrashFolderIds_iff hnfo hmem).mp hc))]
  · intro i h1 h2
    have hmem : st.files[i] ∈ st.files := List.getElem_mem h1
    have hmap : (moveToTrashState st sel).files[i] =
        trashUpdFile (moveToTrashFileIds st sel) st.files[i] :=
      List.getElem_map _
    constructor
    · intro hA
      rw [hmap, trashUpdFile_pos
        ((mem_moveToTrashFileIds_iff hnfi hmem).mpr hA)]
    · intro hNA
      rw [hmap, trashUpdFile_neg
        (fun hc => hNA ((mem_moveToTrashFileIds_iff hnfi hmem).mp hc))]

/-- Witness for C2 on a concrete state: trashing `F`(1) in `exSubtree`
cascades to `sub`(2) and the file inside, recording original parents, and
leaves the unrelated root file untouched. -/
theorem moveToTrash_cascade_spec_witness :
    (moveToTrashState exSubtree [1]).folders.length = exSubtree.folders.length ∧
    (moveToTrashState exSubtree [1]).folders.map
      (fun f => (f.id, f.trashed, f.originalParentId)) =
      [(0, false, none), (1, true, some 0), (2, true, some 1)] ∧
    (moveToTrashState exSubtree [1]).files.map
      (fun f => (f.id, f.trashed, f.originalParentId)) =
      [(10, true, some 2), (11, false, none)] :=
  ⟨(moveToTrash_cascade_spec exSubtree [1] (by decide) (by decide)).1.1,
   by decide, by decide⟩

/-- C4 (counterexample): the claim quantifies over every state.  File and
folder ids need not be disjoint: in `exIdCollision` a trashed folder and a
live file share id 1.  `emptyTrash` keeps the live file, while
`permanentDelete` applied to the set of trashed ids also deletes the live
file whose id collides with the trashed folder's id, so the two results
differ. -/
theorem emptyTrash_permanentDelete_counterexample :
    emptyTrashState exIdCollision ≠
      permanentDeleteState exIdCollision (trashedSelection exIdCollision) := by
  decide

/-- C4 (amended): `emptyTrash` produces the same local state as
`permanentDelete` applied to all currently trashed ids, provided no live
item shares an id with a trashed item and no live item is parented at a
trashed folder (both hold in invariant-respecting states); and with nothing
trashed, `emptyTrash` leaves the state unchanged. -/
theorem emptyTrash_matches_permanentDelete (st : DriveState)
    (hA : ∀ f ∈ st.folders, f.trashed = false → ∀ g ∈ st.folders,
      g.trashed = true → f.parentId ≠ some g.id)
    (hB : ∀ x ∈ st.files, x.trashed = false → ∀ g ∈ st.folders,
      g.trashed = true → x.parentId ≠ some g.id)
    (hC : ∀ f ∈ st.folders, f.trashed = false → f.id ∉ trashedSelection st)
    (hD : ∀ x ∈ st.files, x.trashed = false → x.id ∉ trashedSelection st) :
    permanentDeleteState st (trashedSelection st) = emptyTrashState st ∧
    (hasTrash st = false → emptyTrashState st = st) := by
  constructor
  · have hDchar : ∀ {x : ItemId},
        x ∈ foldersToDelete st (trashedSelection st) →
        ∃ g ∈ st.folders, g.id = x ∧ g.trashed = true := by
      intro x hx
      have h := cascade_sound hx
      clear hx
      induction h with
      | seed hs =>
          rcases mem_filterMapId.mp hs with ⟨f, hf, hfx, hp⟩
          cases htr : f.trashed with
          | true => exact ⟨f, hf, hfx, htr⟩
          | false => exact absurd ((contains_iff_mem _ _).mp hp) (hC f hf htr)
      | step hf hk hp hsub ih =>
          rename_i f p
          rcases ih with ⟨g, hg, hgid, hgtr⟩
          cases htr : f.trashed with
          | true => exact ⟨f, hf, rfl, htr⟩
          | false => exact absurd (by rw [hp, hgid]) (hA f hf htr g hg hgtr)
    have hDmem : ∀ g ∈ st.folders, g.trashed = true →
        g.id ∈ foldersToDelete st (trashedSelection st) := by
      intro g hg htr
      refine seed_subset_cascade (mem_filterMapId.mpr ⟨g, hg, rfl, ?_⟩)
      exact (contains_iff_mem _ _).mpr
        (List.mem_append_left _ (mem_filterMapId.mpr ⟨g, hg, rfl, htr⟩))
    have hfoldEq : st.folders.filter
        (fun f => !((foldersToDelete st (trashedSelection st)).contains f.id)) =
        st.folders.filter (fun f => !f.trashed) := by
      refine List.filter_congr ?_
      intro f hf
      cases htr : f.trashed with
      | true =>
          rw [(contains_iff_mem _ _).mpr (hDmem f hf htr)]
      | false =>
          have hnc : (foldersToDelete st (trashedSelection st)).contains f.id
              = false := by
            cases hcc : (foldersToDelete st (trashedSelection st)).contains f.id with
            | false => rfl
            | true =>
                exfalso
                rcases hDchar ((contains_iff_mem _ _).mp hcc) with
                  ⟨g, hg, hgid, hgtr⟩
                refine hC f hf htr ?_
                exact List.mem_append_left _
                  (mem_filterMapId.mpr ⟨g, hg, hgid, hgtr⟩)
          rw [hnc]
    have hfileEq : st.files.filter
        (fun f => !((filesToDelete st (trashedSelection st)).contains f.id)) =
        st.files.filter (fun f => !f.trashed) := by
      refine List.filter_congr ?_
      intro x hx
      cases htr : x.trashed with
      | true =>
          have hxid : x.id ∈ filesToDelete st (trashedSelection st) := by
            refine mem_filterMapIdFile.mpr ⟨x, hx, rfl, ?_⟩
            have hsel : (trashedSelection st).contains x.id = true :=
              (contains_iff_mem _ _).mpr (List.mem_append_right _
                (mem_filterMapIdFile.mpr ⟨x, hx, rfl, htr⟩))
            rw [hsel, Bool.true_or]
          rw [(contains_iff_mem _ _).mpr hxid]
      | false =>
          have hnc : (filesToDelete st (trashedSelection st)).contains x.id
              = false := by
            cases hcc : (filesToDelete st (trashedSelection st)).contains x.id with
            | false => rfl
            | true =>
                exfalso
                rcases mem_filterMapIdFile.mp ((contains_iff_mem _ _).mp hcc)
                  with ⟨y, hy, hyid, hcond⟩
                have hcond2 : (trashedSelection st).contains y.id = true ∨
                    parentMem (foldersToDelete st (trashedSelection st))
                      y.parentId = true := by
                  simpa using hcond
                rcases hcond2 with hsel | hpm
                · exact hD x hx htr (hyid ▸ (contains_iff_mem _ _).mp hsel)
                · rcases parentMem_iff.mp hpm with ⟨p, hp, hpD⟩
                  rcases hDchar hpD with ⟨g, hg, hgid, hgtr⟩
                  cases hytr : y.trashed with
                  | false =>
                      exact hB y hy hytr g hg hgtr (by rw [hp, hgid])
                  | true =>
                      refine hD x hx htr ?_
                      refine hyid ▸ List.mem_append_right _
                        (mem_filterMapIdFile.mpr ⟨y, hy, rfl, hytr⟩)
          rw [hnc]
    show { st with
      folders := st.folders.filter
        (fun f => !((foldersToDelete st (trashedSelection st)).contains f.id)),
      files := st.files.filter
        (fun f => !((filesToDelete st (trashedSelection st)).contains f.id)) } =
      { st with
        folders := st.folders.filter (fun f => !f.trashed),
        files := st.files.filter (fun f => !f.trashed) }
    rw [hfoldEq, hfileEq]
  · intro h
    obtain ⟨h1, h2⟩ : st.folders.any (fun f => f.trashed) = false ∧
        st.files.any (fun f => f.trashed) = false := by
      have hh := h
      unfold hasTrash at hh
      exact Bool.or_eq_false_iff.mp hh
    have hf1 : st.folders.filter (fun f => !f.trashed) = st.folders := by
      refine List.filter_eq_self.mpr ?_
      intro f hf
      rw [List.any_eq_false] at h1
      rw [Bool.not_eq_true' .. |>.mpr (by simpa using h1 f hf)]
    have hf2 : st.files.filter (fun f => !f.trashed) = st.files := by
      refine List.filter_eq_self.mpr ?_
      intro f hf
      rw [List.any_eq_false] at h2
      rw [Bool.not_eq_true' .. |>.mpr (by simpa using h2 f hf)]
    show { st with
      folders := st.folders.filter (fun f => !f.trashed),
      files := st.files.filter (fun f => !f.trashed) } = st
    rw [hf1, hf2]

/-- Witness for the amended C4 theorem on a concrete mixed state. -/
theorem emptyTrash_matches_permanentDelete_witness :
    permanentDeleteState exTrashMix (trashedSelection exTrashMix) =
      emptyTrashState exTrashMix :=
  (emptyTrash_matches_permanentDelete exTrashMix (by decide) (by decide)
    (by decide) (by decide)).1

/-! ## Claim C1: the moveToTrash/restore round trip -/

/-- C1 (counterexample): the claim quantifies over any folder `F` and only
excludes trashed subtree items with a recorded `originalParentId`.  Taking
`F` to be the root folder (nothing is trashed, so the proviso holds
vacuously), `moveToTrash({root})` records no original parent (both are
null), and `restore({root})` then falls back to `rootFolderId`: the root's
`parentId` changes from `null` to itself, so it is not returned to its exact
pre-trash `parentId`. -/
theorem trash_restore_root_counterexample :
    (∀ f ∈ exRootOnly.folders, f.trashed = false ∧ f.originalParentId = none) ∧
    exRootOnly.files = [] ∧
    (restoreState (moveToTrashState exRootOnly [0]) [0]).folders.map
      (fun f => f.parentId) = [some 0] ∧
    exRootOnly.folders.map (fun f => f.parentId) = [none] := by decide

/-- C1 (amended): let `F` be a folder with a non-null `parentId` in a state
with unique folder and file ids where no file shares `F`'s id and no item in
`F`'s subtree (reachable through parent links, trashed or not) carries a
non-null `originalParentId` — the claim's own proviso for trashed items plus
the data-model invariant for live ones.  Then `moveToTrash({F})` followed
immediately by `restore({F})` keeps every item at its position, returns
every affected item to its exact pre-trash `parentId` with `trashed = false`
and `originalParentId = null`, and leaves every unaffected item entirely
unchanged. -/
theorem trash_restore_roundtrip (st : DriveState) (F : DriveFolder)
    (hF : F ∈ st.folders) (hFp : F.parentId ≠ none)
    (hnfo : (st.folders.map (fun f => f.id)).Nodup)
    (hnfi : (st.files.map (fun f => f.id)).Nodup)
    (hfid : ∀ x ∈ st.files, x.id ≠ F.id)
    (hsubF : ∀ g ∈ st.folders,
      FReach st.folders (fun _ => true) [F.id] g.id →
      g.originalParentId = none)
    (hsubX : ∀ x ∈ st.files, ∀ p, x.parentId = some p →
      FReach st.folders (fun _ => true) [F.id] p →
      x.originalParentId = none) :
    ((restoreState (moveToTrashState st [F.id]) [F.id]).folders =
      st.folders.map (roundTripFolder st F.id) ∧
     (restoreState (moveToTrashState st [F.id]) [F.id]).files =
      st.files.map (roundTripFile st F.id)) ∧
    (∀ g ∈ st.folders,
      (roundTripFolder st F.id g).parentId = g.parentId ∧
      (roundTripFolder st F.id g).id = g.id ∧
      ((g.id ∈ moveToTrashFolderIds st [F.id] ∨
        g.id ∈ restoreFolderIds (moveToTrashState st [F.id]) [F.id]) →
        (roundTripFolder st F.id g).trashed = false ∧
        (roundTripFolder st F.id g).originalParentId = none) ∧
      ((g.id ∉ moveToTrashFolderIds st [F.id] ∧
        g.id ∉ restoreFolderIds (moveToTrashState st [F.id]) [F.id]) →
        roundTripFolder st F.id g = g)) ∧
    (∀ x ∈ st.files,
      (roundTripFile st F.id x).parentId = x.parentId ∧
      (roundTripFile st F.id x).id = x.id ∧
      ((x.id ∈ moveToTrashFileIds st [F.id] ∨
        x.id ∈ restoreFileIds (moveToTrashState st [F.id]) [F.id]) →
        (roundTripFile st F.id x).trashed = false ∧
        (roundTripFile st F.id x).originalParentId = none) ∧
      ((x.id ∉ moveToTrashFileIds st [F.id] ∧
        x.id ∉ restoreFileIds (moveToTrashState st [F.id]) [F.id]) →
        roundTripFile st F.id x = x)) := by
  refine ⟨⟨?_, ?_⟩, ?_, ?_⟩
  · exact List.map_map _ _ _
  · exact List.map_map _ _ _
  · -- folders
    intro g hg
    by_cases hRg : g.id ∈ restoreFolderIds (moveToTrashState st [F.id]) [F.id]
    · -- g is restored: it has a null original parent and a non-null parent,
      -- and the round trip leaves it live at its original position.
      have horig : g.originalParentId = none :=
        hsubF g hg (restoreFolderIds_after_move_reach hRg)
      have hpar : ∃ p, g.parentId = some p := by
        rcases FReach_inv (cascade_sound hRg) with hs | hstep
        · rcases mem_filterMapId.mp hs with ⟨f1, hf1, hf1id, hcond⟩
          rcases List.mem_map.mp hf1 with ⟨f0, hf0, hf0f1⟩
          obtain ⟨-, hsel⟩ : f1.trashed = true ∧
              ([F.id].contains f1.id) = true := by simpa using hcond
          have hfF : f1.id = F.id := by simpa using hsel
          have hgid : g.id = F.id := by rw [← hf1id, hfF]
          have h0id : f0.id = g.id := by
            rw [← hf1id, ← hf0f1, trashUpdFolder_id]
          have hgF : g = F :=
            List.inj_on_of_nodup_map hnfo hg hF hgid
          rw [hgF]
          exact Option.ne_none_iff_exists'.mp hFp
        · rcases hstep with ⟨f1, hf1, hf1id, -, p, hp1, -⟩
          rcases List.mem_map.mp hf1 with ⟨f0, hf0, hf0f1⟩
          have h0id : f0.id = g.id := by
            rw [← hf1id, ← hf0f1, trashUpdFolder_id]
          have h0g : f0 = g :=
            List.inj_on_of_nodup_map hnfo hf0 hg h0id
          refine ⟨p, ?_⟩
          rw [← h0g, ← trashUpdFolder_parentId (moveToTrashFolderIds st [F.id]) f0,
            hf0f1]
          exact hp1
      obtain ⟨p, hp⟩ := hpar
      have hcomp : roundTripFolder st F.id g =
          { g with trashed := false, parentId := g.parentId,
                   originalParentId := none } := by
        unfold roundTripFolder
        by_cases hMg : g.id ∈ moveToTrashFolderIds st [F.id]
        · rw [restoreUpdFolder_pos
            (show (trashUpdFolder (moveToTrashFolderIds st [F.id]) g).id ∈
                restoreFolderIds (moveToTrashState st [F.id]) [F.id] by
              rw [trashUpdFolder_id]; exact hRg),
            trashUpdFolder_pos hMg, horig, hp]
          rfl
        · rw [trashUpdFolder_neg hMg, restoreUpdFolder_pos hRg, horig, hp]
          rfl
      refine ⟨?_, ?_, ?_, ?_⟩
      · rw [hcomp]
      · rw [hcomp]
      · intro _
        rw [hcomp]
        exact ⟨rfl, rfl⟩
      · intro hno
        exact absurd hRg hno.2
    · -- g is untouched by both updates.
      have hMg : g.id ∉ moveToTrashFolderIds st [F.id] :=
        fun h => hRg (moveToTrashFolderIds_subset_restore h)
      have hcomp : roundTripFolder st F.id g = g := by
        unfold roundTripFolder
        rw [trashUpdFolder_neg hMg, restoreUpdFolder_neg hRg]
      refine ⟨by rw [hcomp], by rw [hcomp], ?_, fun _ => hcomp⟩
      intro haff
      rcases haff with h | h
      · exact absurd (moveToTrashFolderIds_subset_restore h) hRg
      · exact absurd h hRg
  · -- files
    intro x hx
    by_cases hRx : x.id ∈ restoreFileIds (moveToTrashState st [F.id]) [F.id]
    · have hder : ∃ p, x.parentId = some p ∧
          p ∈ restoreFolderIds (moveToTrashState st [F.id]) [F.id] := by
        rcases mem_filterMapIdFile.mp hRx with ⟨y1, hy1, hy1id, hcond⟩
        rcases List.mem_map.mp hy1 with ⟨y0, hy0, hy0y1⟩
        have h0id : y0.id = x.id := by
          rw [← hy1id, ← hy0y1, trashUpdFile_id]
        have h0x : y0 = x := List.inj_on_of_nodup_map hnfi hy0 hx h0id
        obtain ⟨-, hsel⟩ : y1.trashed = true ∧
            (([F.id].contains y1.id) = true ∨
             parentMem (restoreFolderIds (moveToTrashState st [F.id]) [F.id])
               y1.parentId = true) := by
          have hc := hcond
          simp only [Bool.and_eq_true, Bool.or_eq_true] at hc
          exact ⟨hc.1, hc.2⟩
        rcases hsel with hsel | hpm
        · exfalso
          have : y1.id = F.id := by simpa using hsel
          exact hfid x hx (by rw [← hy1id, this])
        · rcases parentMem_iff.mp hpm with ⟨p, hp1, hpR⟩
          refine ⟨p, ?_, hpR⟩
          rw [← h0x, ← trashUpdFile_parentId (moveToTrashFileIds st [F.id]) y0,
            hy0y1]
          exact hp1
      obtain ⟨p, hp, hpR⟩ := hder
      have horig : x.originalParentId = none :=
        hsubX x hx p hp (restoreFolderIds_after_move_reach hpR)
      have hcomp : roundTripFile st F.id x =
          { x with trashed := false, parentId := x.parentId,
                   originalParentId := none } := by
        unfold roundTripFile
        by_cases hMx : x.id ∈ moveToTrashFileIds st [F.id]
        · rw [restoreUpdFile_pos
            (show (trashUpdFile (moveToTrashFileIds st [F.id]) x).id ∈
                restoreFileIds (moveToTrashState st [F.id]) [F.id] by
              rw [trashUpdFile_id]; exact hRx),
            trashUpdFile_pos hMx, horig, hp]
          rfl
        · rw [trashUpdFile_neg hMx, restoreUpdFile_pos hRx, horig, hp]
          rfl
      refine ⟨by rw [hcomp], by rw [hcomp], ?_, ?_⟩
      · intro _
        rw [hcomp]
        exact ⟨rfl, rfl⟩
      · intro hno
        exact absurd hRx hno.2
    · have hMx : x.id ∉ moveToTrashFileIds st [F.id] :=
        fun h => hRx (moveToTrashFileIds_subset_restore h)
      have hcomp : roundTripFile st F.id x = x := by
        unfold roundTripFile
        rw [trashUpdFile_neg hMx, restoreUpdFile_neg hRx]
      refine ⟨by rw [hcomp], by rw [hcomp], ?_, fun _ => hcomp⟩
      intro haff
      rcases haff with h | h
      · exact absurd (moveToTrashFileIds_subset_restore h) hRx
      · exact absurd h hRx

/-- Witness for the amended C1 theorem: on `exSubtree`, trashing and
restoring the folder `F`(1) is, item for item, the identity — shown both by
projecting the theorem and by direct evaluation of the full round trip. -/
theorem trash_restore_roundtrip_witness :
    (restoreState (moveToTrashState exSubtree [1]) [1]).folders =
      exSubtree.folders.map (roundTripFolder exSubtree 1) ∧
    restoreState (moveToTrashState exSubtree [1]) [1] = exSubtree :=
  ⟨(trash_restore_roundtrip exSubtree ⟨1, "F", some 0, false, none⟩
      (by decide) (by decide) (by decide) (by decide) (by decide)
      (by intro g hg _; fin_cases hg <;> rfl)
      (by intro x hx p _ _; fin_cases hx <;> rfl)).1.1,
   by decide⟩
